import Mathlib

/-!
Shallow embedding of the ChessChampion chess engine core
(src/game/types.py, src/game/pieces.py, src/game/board.py,
src/game/move_validator.py, src/game/game_state.py, src/ai/ai_player.py)
together with theorems settling the frozen specification claims.

Python mutable objects are rendered as immutable Lean values; methods that
mutate state become functions returning the updated value.  Python code that
can raise at runtime (`create_piece(color, None)` inside promotion handling)
is rendered in the `Option` monad, `none` marking the raising run.
-/

namespace ChessChampion

/-- Color enum from src/game/types.py. -/
inductive Color
  | white
  | black
deriving DecidableEq, Repr

/-- Color.opposite from src/game/types.py. -/
def Color.opposite : Color → Color
  | .white => .black
  | .black => .white

/-- PieceType enum from src/game/types.py. -/
inductive PieceType
  | pawn
  | rook
  | knight
  | bishop
  | queen
  | king
deriving DecidableEq, Repr

/-- GameStatus enum from src/game/types.py. -/
inductive GameStatus
  | active
  | check
  | checkmate
  | stalemate
  | draw
deriving DecidableEq, Repr

/-- MoveType enum from src/game/types.py. -/
inductive MoveType
  | normal
  | capture
  | castlingKingside
  | castlingQueenside
  | enPassant
  | promotion
  | pawnDouble
deriving DecidableEq, Repr

/-- Position from src/game/types.py: a (row, col) pair.  The Python
constructor rejects coordinates outside [0,7]; in the source every Position
is built behind an explicit bounds check, which this embedding keeps at each
construction site, so coordinates are plain integers here. -/
structure Position where
  row : Int
  col : Int
deriving DecidableEq, Repr

/-- A piece value: the (color, piece_type) content of a Piece object from
src/game/pieces.py.  Behavior lives in the move-generation functions below. -/
structure Piece where
  color : Color
  pieceType : PieceType
deriving DecidableEq, Repr

/-- Move from src/game/types.py (dataclass fields only; the undo snapshot
attributes grafted on by GameState.make_move live in HistMove below). -/
structure Move where
  fromPos : Position
  toPos : Position
  moveType : MoveType := .normal
  promotionPiece : Option PieceType := none
  capturedPiece : Option Piece := none
deriving DecidableEq, Repr

/-- CastlingRights from src/game/types.py: a bit mask over four flags. -/
structure CastlingRights where
  rights : Nat := 15
deriving DecidableEq, Repr

/-- Flag constants WHITE_KINGSIDE .. BLACK_QUEENSIDE. -/
def castlingFlag (c : Color) (kingside : Bool) : Nat :=
  match c, kingside with
  | .white, true => 1
  | .white, false => 2
  | .black, true => 4
  | .black, false => 8

/-- CastlingRights.can_castle. -/
def CastlingRights.canCastle (cr : CastlingRights) (c : Color) (kingside : Bool) : Bool :=
  cr.rights &&& castlingFlag c kingside != 0

/-- CastlingRights.remove_rights.  Python clears bits with
`rights &= ~mask`; on nonnegative integers that equals
`rights - (rights &&& mask)`, which is the rendering used here.
`kingside = none` removes both flags of the color, as in the source. -/
def CastlingRights.removeRights (cr : CastlingRights) (c : Color)
    (kingside : Option Bool := none) : CastlingRights :=
  let mask :=
    match kingside with
    | none => castlingFlag c true ||| castlingFlag c false
    | some ks => castlingFlag c ks
  ⟨cr.rights - (cr.rights &&& mask)⟩

/-- Board from src/game/board.py: the 8x8 grid (as a square-indexed map),
castling rights and the en-passant target. -/
structure Board where
  grid : Position → Option Piece
  castlingRights : CastlingRights := {}
  enPassantTarget : Option Position := none

/-- Board.get_piece. -/
def Board.getPiece (b : Board) (p : Position) : Option Piece :=
  b.grid p

/-- Board.set_piece. -/
def Board.setPiece (b : Board) (p : Position) (piece : Option Piece) : Board :=
  { b with grid := fun q => if q = p then piece else b.grid q }

/-- Board.remove_piece (the stored part; the returned piece is read off with
get_piece by callers that need it). -/
def Board.removePiece (b : Board) (p : Position) : Board :=
  b.setPiece p none

/-- Board.move_piece: remove the piece at `fromPos`, remove any occupant of
`toPos`, and put the moved piece at `toPos`. -/
def Board.movePiece (b : Board) (fromPos toPos : Position) : Board :=
  let piece := b.grid fromPos
  (b.setPiece fromPos none).setPiece toPos piece

/-- Board.get_all_pieces: row-major scan of the grid, optionally filtered by
color (`co = none` keeps every piece, as `color=None` does in Python). -/
def Board.getAllPieces (b : Board) (co : Option Color) : List (Position × Piece) :=
  (List.range 8).flatMap fun r =>
    (List.range 8).filterMap fun c =>
      match b.grid ⟨(r : Int), (c : Int)⟩ with
      | some piece =>
          if co = none ∨ co = some piece.color then
            some (⟨(r : Int), (c : Int)⟩, piece)
          else none
      | none => none

/-- Board.find_king: first square (row-major) holding a king of the color. -/
def Board.findKing (b : Board) (c : Color) : Option Position :=
  ((b.getAllPieces (some c)).find? fun pp => pp.2.pieceType == .king).map Prod.fst

/-- Promotion options in the order the pawn generator iterates them. -/
def promoOptions : List PieceType :=
  [.queen, .rook, .knight, .bishop]

/-- One sliding ray of Rook/Bishop/Queen.get_possible_moves: walk from `cur`
in direction `d` until the edge, an enemy piece (capture, stop) or an own
piece (stop).  The Python while loop takes at most 7 in-bounds steps, so
fuel 8 makes the recursion total without cutting any run short. -/
def slideRay (b : Board) (piece : Piece) (startPos : Position) (d : Int × Int) :
    Nat → Position → List Move
  | 0, _ => []
  | fuel + 1, cur =>
    let nr := cur.row + d.1
    let nc := cur.col + d.2
    if 0 ≤ nr ∧ nr < 8 ∧ 0 ≤ nc ∧ nc < 8 then
      let np : Position := ⟨nr, nc⟩
      match b.grid np with
      | none => ⟨startPos, np, .normal, none, none⟩ :: slideRay b piece startPos d fuel np
      | some tp =>
          if tp.color ≠ piece.color then [⟨startPos, np, .capture, none, some tp⟩]
          else []
    else []

/-- Offset move of Knight/King.get_possible_moves: a single step to the
offset square if it is on the board and not occupied by an own piece. -/
def offsetMove (b : Board) (piece : Piece) (pos : Position) (d : Int × Int) : Option Move :=
  let nr := pos.row + d.1
  let nc := pos.col + d.2
  if 0 ≤ nr ∧ nr < 8 ∧ 0 ≤ nc ∧ nc < 8 then
    let np : Position := ⟨nr, nc⟩
    match b.grid np with
    | none => some ⟨pos, np, .normal, none, none⟩
    | some tp =>
        if tp.color ≠ piece.color then some ⟨pos, np, .capture, none, some tp⟩
        else none
  else none

def rookDirections : List (Int × Int) := [(0, 1), (0, -1), (1, 0), (-1, 0)]

def bishopDirections : List (Int × Int) := [(1, 1), (1, -1), (-1, 1), (-1, -1)]

def queenDirections : List (Int × Int) :=
  [(0, 1), (0, -1), (1, 0), (-1, 0), (1, 1), (1, -1), (-1, 1), (-1, -1)]

def knightOffsets : List (Int × Int) :=
  [(-2, -1), (-2, 1), (-1, -2), (-1, 2), (1, -2), (1, 2), (2, -1), (2, 1)]

def kingOffsets : List (Int × Int) :=
  [(0, 1), (0, -1), (1, 0), (-1, 0), (1, 1), (1, -1), (-1, 1), (-1, -1)]

/-- Pawn.get_possible_moves from src/game/pieces.py: single push (with the
four promotion options on the final rank), double push from the start row,
diagonal captures (with promotion options on the final rank) and en passant
onto the board's recorded target square. -/
def pawnMoves (piece : Piece) (pos : Position) (b : Board) : List Move :=
  let direction : Int := if piece.color = .white then -1 else 1
  let startRow : Int := if piece.color = .white then 6 else 1
  let forwardPart :=
    let newRow := pos.row + direction
    if 0 ≤ newRow ∧ newRow < 8 then
      let forwardPos : Position := ⟨newRow, pos.col⟩
      match b.grid forwardPos with
      | none =>
        let single :=
          if newRow = 0 ∨ newRow = 7 then
            promoOptions.map fun pp => ⟨pos, forwardPos, .promotion, some pp, none⟩
          else [⟨pos, forwardPos, .normal, none, none⟩]
        let dbl :=
          if pos.row = startRow then
            let doublePos : Position := ⟨pos.row + 2 * direction, pos.col⟩
            match b.grid doublePos with
            | none => [⟨pos, doublePos, .pawnDouble, none, none⟩]
            | some _ => []
          else []
        single ++ dbl
      | some _ => []
    else []
  let capturePart :=
    ([-1, 1] : List Int).flatMap fun colDelta =>
      let newCol := pos.col + colDelta
      let newRow := pos.row + direction
      if 0 ≤ newRow ∧ newRow < 8 ∧ 0 ≤ newCol ∧ newCol < 8 then
        let capturePos : Position := ⟨newRow, newCol⟩
        match b.grid capturePos with
        | some tp =>
            if tp.color ≠ piece.color then
              if newRow = 0 ∨ newRow = 7 then
                promoOptions.map fun pp => ⟨pos, capturePos, .promotion, some pp, some tp⟩
              else [⟨pos, capturePos, .capture, none, some tp⟩]
            else []
        | none =>
            if b.enPassantTarget = some capturePos then
              [⟨pos, capturePos, .enPassant, none, b.grid ⟨pos.row, newCol⟩⟩]
            else []
      else []
  forwardPart ++ capturePart

/-- King castling candidates appended by King.get_possible_moves whenever the
rights flag is still set (full legality is left to the validator). -/
def kingCastlingCandidates (b : Board) (piece : Piece) (pos : Position) : List Move :=
  let kingside :=
    if b.castlingRights.canCastle piece.color true then
      let castlingCol := pos.col + 2
      if 0 ≤ castlingCol ∧ castlingCol < 8 then
        [⟨pos, ⟨pos.row, castlingCol⟩, .castlingKingside, none, none⟩]
      else []
    else []
  let queenside :=
    if b.castlingRights.canCastle piece.color false then
      let castlingCol := pos.col - 2
      if 0 ≤ castlingCol ∧ castlingCol < 8 then
        [⟨pos, ⟨pos.row, castlingCol⟩, .castlingQueenside, none, none⟩]
      else []
    else []
  kingside ++ queenside

/-- Piece.get_possible_moves, dispatched on the piece type as the class
hierarchy of src/game/pieces.py does. -/
def getPossibleMoves (piece : Piece) (pos : Position) (b : Board) : List Move :=
  match piece.pieceType with
  | .pawn => pawnMoves piece pos b
  | .rook => rookDirections.flatMap fun d => slideRay b piece pos d 8 pos
  | .bishop => bishopDirections.flatMap fun d => slideRay b piece pos d 8 pos
  | .queen => queenDirections.flatMap fun d => slideRay b piece pos d 8 pos
  | .knight => knightOffsets.filterMap fun d => offsetMove b piece pos d
  | .king =>
      (kingOffsets.filterMap fun d => offsetMove b piece pos d)
        ++ kingCastlingCandidates b piece pos

/-- Board.is_position_attacked: some pseudo-legal move of the given color
targets the square, castling candidates excluded. -/
def Board.isPositionAttacked (b : Board) (p : Position) (byColor : Color) : Bool :=
  (b.getAllPieces (some byColor)).any fun pp =>
    (getPossibleMoves pp.2 pp.1 b).any fun m =>
      m.toPos == p &&
        !(m.moveType == .castlingKingside || m.moveType == .castlingQueenside)

/-- MoveValidator.is_king_in_check: locate the king (false if absent) and
ask whether the opponent attacks its square. -/
def isKingInCheck (b : Board) (c : Color) : Bool :=
  match b.findKing c with
  | none => false
  | some kingPos => b.isPositionAttacked kingPos c.opposite

/-- Castling parameter record returned by MoveValidator._get_castling_params. -/
structure CastlingParams where
  rookCol : Int
  kingPath : List Int
  clearCols : List Int

/-- MoveValidator._get_castling_params. -/
def getCastlingParams (isKingside : Bool) : CastlingParams :=
  if isKingside then ⟨7, [5, 6], [5, 6]⟩ else ⟨0, [3, 2], [1, 2, 3]⟩

/-- MoveValidator._is_castling_path_clear. -/
def isCastlingPathClear (b : Board) (row : Int) (params : CastlingParams) : Bool :=
  params.clearCols.all fun c => b.grid ⟨row, c⟩ == none

/-- MoveValidator._is_rook_valid. -/
def isRookValid (b : Board) (row rookCol : Int) (c : Color) : Bool :=
  match b.grid ⟨row, rookCol⟩ with
  | some rook => rook.pieceType == .rook && rook.color == c
  | none => false

/-- MoveValidator._is_castling_path_safe. -/
def isCastlingPathSafe (b : Board) (row : Int) (pathCols : List Int) (c : Color) : Bool :=
  pathCols.all fun col => !b.isPositionAttacked ⟨row, col⟩ c.opposite

/-- MoveValidator._validate_castling. -/
def validateCastling (b : Board) (m : Move) (c : Color) : Bool :=
  if isKingInCheck b c then false
  else
    let isKingside := m.moveType == .castlingKingside
    if !b.castlingRights.canCastle c isKingside then false
    else
      let row := m.fromPos.row
      let params := getCastlingParams isKingside
      if !isCastlingPathClear b row params then false
      else if !isRookValid b row params.rookCol c then false
      else isCastlingPathSafe b row params.kingPath c

/-- MoveValidator._execute_move_on_board, the simplified simulation used by
is_move_legal.  `none` marks the run on which the Python code raises
(`create_piece(color, None)` for a PROMOTION move without a promotion piece). -/
def executeMoveOnBoard (b : Board) (m : Move) : Option Board :=
  match b.grid m.fromPos with
  | none => some b
  | some piece =>
    match m.moveType with
    | .castlingKingside =>
        let row := m.fromPos.row
        some ((b.movePiece m.fromPos m.toPos).movePiece ⟨row, 7⟩ ⟨row, 5⟩)
    | .castlingQueenside =>
        let row := m.fromPos.row
        some ((b.movePiece m.fromPos m.toPos).movePiece ⟨row, 0⟩ ⟨row, 3⟩)
    | .enPassant =>
        some ((b.movePiece m.fromPos m.toPos).removePiece ⟨m.fromPos.row, m.toPos.col⟩)
    | .promotion =>
        match m.promotionPiece with
        | some pt => some ((b.removePiece m.fromPos).setPiece m.toPos (some ⟨piece.color, pt⟩))
        | none => none
    | _ => some (b.movePiece m.fromPos m.toPos)

/-- MoveValidator.is_move_legal: castling goes through _validate_castling,
everything else is simulated on a board copy followed by a check test.
`none` marks the raising run inherited from the simulation. -/
def isMoveLegalE (b : Board) (m : Move) : Option Bool :=
  match b.grid m.fromPos with
  | none => some false
  | some piece =>
    if m.moveType = .castlingKingside ∨ m.moveType = .castlingQueenside then
      some (validateCastling b m piece.color)
    else
      (executeMoveOnBoard b m).map fun tb => !isKingInCheck tb piece.color

/-- MoveValidator.get_legal_moves: the pseudo-legal set filtered by
is_move_legal.  Every generated move carries a promotion piece whenever its
type is PROMOTION (lemma mem_possible_promotion_isSome below), so the
simulation never raises here and `Option.getD false` is exact. -/
def getLegalMoves (b : Board) (pos : Position) : List Move :=
  match b.grid pos with
  | none => []
  | some piece =>
      (getPossibleMoves piece pos b).filter fun m => (isMoveLegalE b m).getD false

/-- MoveValidator.get_all_legal_moves. -/
def getAllLegalMoves (b : Board) (c : Color) : List Move :=
  (b.getAllPieces (some c)).flatMap fun pp => getLegalMoves b pp.1

/-- MoveValidator.has_legal_moves. -/
def hasLegalMoves (b : Board) (c : Color) : Bool :=
  !(getAllLegalMoves b c).isEmpty

/-- A move_history / redo_stack entry: the Move object together with the
previous_castling_rights / previous_en_passant / previous_half_move_clock
snapshot that GameState.make_move grafts onto it before executing. -/
structure HistMove where
  move : Move
  prevCastlingRights : CastlingRights
  prevEnPassant : Option Position
  prevHalfMoveClock : Nat
deriving Repr

/-- GameState from src/game/game_state.py (the validator attribute is not a
field here: it is a function of the board and is re-derived at each use). -/
structure GameState where
  board : Board
  currentTurn : Color := .white
  moveHistory : List HistMove := []
  gameStatus : GameStatus := .active
  halfMoveClock : Nat := 0
  fullMoveNumber : Nat := 1
  selectedPosition : Option Position := none
  capturedByWhite : List PieceType := []
  capturedByBlack : List PieceType := []
  redoStack : List HistMove := []

/-- Captured-piece ledger push used by _execute_move and _execute_en_passant:
the capture is recorded on the mover's ledger. -/
def pushCaptured (gs : GameState) (moverColor : Color) (cap : PieceType) : GameState :=
  match moverColor with
  | .white => { gs with capturedByWhite := gs.capturedByWhite ++ [cap] }
  | .black => { gs with capturedByBlack := gs.capturedByBlack ++ [cap] }

/-- GameState._execute_castling_kingside. -/
def executeCastlingKingside (gs : GameState) (m : Move) (piece : Piece) : GameState :=
  let row := m.fromPos.row
  let b := (gs.board.movePiece m.fromPos m.toPos).movePiece ⟨row, 7⟩ ⟨row, 5⟩
  { gs with board := { b with castlingRights := b.castlingRights.removeRights piece.color } }

/-- GameState._execute_castling_queenside. -/
def executeCastlingQueenside (gs : GameState) (m : Move) (piece : Piece) : GameState :=
  let row := m.fromPos.row
  let b := (gs.board.movePiece m.fromPos m.toPos).movePiece ⟨row, 0⟩ ⟨row, 3⟩
  { gs with board := { b with castlingRights := b.castlingRights.removeRights piece.color } }

/-- GameState._execute_en_passant. -/
def executeEnPassant (gs : GameState) (m : Move) (piece : Piece) : GameState :=
  let capturedPawnPos : Position := ⟨m.fromPos.row, m.toPos.col⟩
  let gs1 :=
    match gs.board.grid capturedPawnPos with
    | some capturedPawn => pushCaptured gs piece.color capturedPawn.pieceType
    | none => gs
  { gs1 with board := (gs1.board.movePiece m.fromPos m.toPos).removePiece capturedPawnPos }

/-- GameState._execute_promotion; `none` is the raising run
(`create_piece(color, None)` when the move carries no promotion piece). -/
def executePromotion (gs : GameState) (m : Move) (piece : Piece) : Option GameState :=
  match m.promotionPiece with
  | none => none
  | some pt =>
      some { gs with
              board := (gs.board.removePiece m.fromPos).setPiece m.toPos (some ⟨piece.color, pt⟩) }

/-- GameState._execute_pawn_double: relocate and record the jumped-over
square as the new en-passant target. -/
def executePawnDouble (gs : GameState) (m : Move) (piece : Piece) : GameState :=
  let direction : Int := if piece.color = .white then -1 else 1
  let enPassantRow := m.fromPos.row + direction
  let b := gs.board.movePiece m.fromPos m.toPos
  { gs with board := { b with enPassantTarget := some ⟨enPassantRow, m.fromPos.col⟩ } }

/-- GameState._update_castling_rights. -/
def updateCastlingRightsOnMove (b : Board) (m : Move) (piece : Piece) : Board :=
  if piece.pieceType = .king then
    { b with castlingRights := b.castlingRights.removeRights piece.color }
  else if piece.pieceType = .rook then
    if m.fromPos.col = 0 then
      { b with castlingRights := b.castlingRights.removeRights piece.color (some false) }
    else if m.fromPos.col = 7 then
      { b with castlingRights := b.castlingRights.removeRights piece.color (some true) }
    else b
  else b

/-- GameState._execute_move: ledger update for plain captures and promotion
captures, en-passant target clearing, dispatch on the move type, castling
rights update.  `none` is the raising promotion run. -/
def executeMove (gs : GameState) (m : Move) : Option GameState :=
  match gs.board.grid m.fromPos with
  | none => none
  | some piece =>
    let gs0 :=
      if m.moveType = .capture ∨ m.moveType = .promotion then
        match gs.board.grid m.toPos with
        | some capturedPiece => pushCaptured gs piece.color capturedPiece.pieceType
        | none => gs
      else gs
    let gs1 := { gs0 with board := { gs0.board with enPassantTarget := none } }
    let dispatched : Option GameState :=
      match m.moveType with
      | .castlingKingside => some (executeCastlingKingside gs1 m piece)
      | .castlingQueenside => some (executeCastlingQueenside gs1 m piece)
      | .enPassant => some (executeEnPassant gs1 m piece)
      | .promotion => executePromotion gs1 m piece
      | .pawnDouble => some (executePawnDouble gs1 m piece)
      | _ => some { gs1 with board := gs1.board.movePiece m.fromPos m.toPos }
    dispatched.map fun g => { g with board := updateCastlingRightsOnMove g.board m piece }

/-- GameState._update_game_status, in the source's branch order. -/
def updateGameStatus (gs : GameState) : GameState :=
  if !hasLegalMoves gs.board gs.currentTurn then
    if isKingInCheck gs.board gs.currentTurn then { gs with gameStatus := .checkmate }
    else { gs with gameStatus := .stalemate }
  else if isKingInCheck gs.board gs.currentTurn then { gs with gameStatus := .check }
  else if gs.halfMoveClock ≥ 100 then { gs with gameStatus := .draw }
  else { gs with gameStatus := .active }

/-- GameState.make_move: reject on empty source square, wrong color or
illegal move (returning false with the state untouched), otherwise snapshot,
execute, append to history, clear the redo stack, update the clocks, flip
the turn and recompute the status.  `none` is the raising promotion run. -/
def makeMove (gs : GameState) (m : Move) : Option (Bool × GameState) :=
  match gs.board.grid m.fromPos with
  | none => some (false, gs)
  | some piece =>
    if piece.color ≠ gs.currentTurn then some (false, gs)
    else
      match isMoveLegalE gs.board m with
      | none => none
      | some false => some (false, gs)
      | some true =>
        let hm : HistMove :=
          ⟨m, gs.board.castlingRights, gs.board.enPassantTarget, gs.halfMoveClock⟩
        (executeMove gs m).map fun gs1 =>
          let gs2 := { gs1 with moveHistory := gs1.moveHistory ++ [hm], redoStack := [] }
          let gs3 := { gs2 with
                        halfMoveClock :=
                          if piece.pieceType = PieceType.pawn ∨ m.moveType = MoveType.capture
                          then 0
                          else gs2.halfMoveClock + 1 }
          let gs4 := { gs3 with
                        fullMoveNumber :=
                          if gs.currentTurn = Color.black then gs3.fullMoveNumber + 1
                          else gs3.fullMoveNumber }
          let gs5 := { gs4 with currentTurn := gs.currentTurn.opposite }
          (true, updateGameStatus gs5)

/-- The guarded `list.remove` of _reverse_move: drop the first occurrence of
the captured piece type if present (List.erase is exactly that). -/
def removeFromLedger (gs : GameState) (pieceAtTo : Option Piece) (cap : Piece) : GameState :=
  match pieceAtTo with
  | some p =>
      match p.color with
      | .white => { gs with capturedByWhite := gs.capturedByWhite.erase cap.pieceType }
      | .black => { gs with capturedByBlack := gs.capturedByBlack.erase cap.pieceType }
  | none => gs

/-- GameState._reverse_move. -/
def reverseMove (gs : GameState) (m : Move) : GameState :=
  let pieceAtTo := gs.board.grid m.toPos
  match m.moveType with
  | .castlingKingside =>
      let row := m.toPos.row
      { gs with board := (gs.board.movePiece m.toPos m.fromPos).movePiece ⟨row, 5⟩ ⟨row, 7⟩ }
  | .castlingQueenside =>
      let row := m.toPos.row
      { gs with board := (gs.board.movePiece m.toPos m.fromPos).movePiece ⟨row, 3⟩ ⟨row, 0⟩ }
  | .enPassant =>
      let b1 := gs.board.movePiece m.toPos m.fromPos
      let capturedPawnPos : Position := ⟨m.fromPos.row, m.toPos.col⟩
      (match m.capturedPiece with
       | some cp =>
           removeFromLedger { gs with board := b1.setPiece capturedPawnPos (some cp) } pieceAtTo cp
       | none => { gs with board := b1 })
  | .promotion =>
      let b1 := gs.board.removePiece m.toPos
      let b2 :=
        match pieceAtTo with
        | some p => b1.setPiece m.fromPos (some ⟨p.color, .pawn⟩)
        | none => b1
      (match m.capturedPiece with
       | some cp => removeFromLedger { gs with board := b2.setPiece m.toPos (some cp) } pieceAtTo cp
       | none => { gs with board := b2 })
  | _ =>
      let b1 := gs.board.movePiece m.toPos m.fromPos
      (match m.capturedPiece with
       | some cp => removeFromLedger { gs with board := b1.setPiece m.toPos (some cp) } pieceAtTo cp
       | none => { gs with board := b1 })

/-- GameState.undo_move: pop the last history entry, push it on the redo
stack, reverse it on the board, restore the snapshot castling rights /
en-passant target / clock, flip the turn back, adjust the full-move number,
recompute the status and clear the selection. -/
def undoMove (gs : GameState) : Bool × GameState :=
  match gs.moveHistory.getLast? with
  | none => (false, gs)
  | some hm =>
    let gs1 := { gs with
                  moveHistory := gs.moveHistory.dropLast,
                  redoStack := gs.redoStack ++ [hm] }
    let gs2 := reverseMove gs1 hm.move
    let gs3 := { gs2 with
                  board := { gs2.board with
                              castlingRights := hm.prevCastlingRights,
                              enPassantTarget := hm.prevEnPassant },
                  halfMoveClock := hm.prevHalfMoveClock }
    let gs4 := { gs3 with currentTurn := gs3.currentTurn.opposite }
    let gs5 :=
      if gs4.currentTurn = .black then { gs4 with fullMoveNumber := gs4.fullMoveNumber - 1 }
      else gs4
    (true, { updateGameStatus gs5 with selectedPosition := none })

/-- GameState.copy: a fresh state built from the copied board and the listed
fields only; the captured-piece ledgers and the redo stack take the
dataclass defaults (empty lists), exactly as in the source. -/
def GameState.copy (gs : GameState) : GameState :=
  { board := gs.board,
    currentTurn := gs.currentTurn,
    moveHistory := gs.moveHistory,
    gameStatus := gs.gameStatus,
    halfMoveClock := gs.halfMoveClock,
    fullMoveNumber := gs.fullMoveNumber,
    selectedPosition := gs.selectedPosition }

/-- GameState.is_game_over. -/
def isGameOver (gs : GameState) : Bool :=
  gs.gameStatus == .checkmate || gs.gameStatus == .stalemate || gs.gameStatus == .draw

/-- GameState.get_all_legal_moves (for the side to move). -/
def stateAllLegalMoves (gs : GameState) : List Move :=
  getAllLegalMoves gs.board gs.currentTurn

/-- Search scores from src/ai/ai_player.py: every value the float arithmetic
there produces is either an exact integer or one of the two infinities used
as sentinels, so scores embed as this three-case type. -/
inductive Score
  | negInf
  | num (n : Int)
  | posInf
deriving DecidableEq, Repr

/-- Strict `<` on scores (the float comparison of the source). -/
def Score.blt : Score → Score → Bool
  | .negInf, .negInf => false
  | .negInf, _ => true
  | .num _, .negInf => false
  | .num a, .num b => a < b
  | .num _, .posInf => true
  | .posInf, _ => false

/-- Non-strict `<=` on scores (negation of the reversed strict order, valid
for this total order just as for floats without NaN). -/
def Score.ble (a b : Score) : Bool :=
  !Score.blt b a

/-- Python max(a, b): b if a < b else a. -/
def Score.smax (a b : Score) : Score :=
  if Score.blt a b then b else a

/-- Python min(a, b): b if b < a else a. -/
def Score.smin (a b : Score) : Score :=
  if Score.blt b a then b else a

/-- Material values from AIPlayer.piece_values (identical to
Piece.get_piece_value in src/game/pieces.py). -/
def pieceValue : PieceType → Int
  | .pawn => 100
  | .knight => 320
  | .bishop => 330
  | .rook => 500
  | .queen => 900
  | .king => 20000

/-- AIPlayer.position_tables[PAWN]. -/
def pawnTable : List (List Int) :=
  [[0, 0, 0, 0, 0, 0, 0, 0],
   [50, 50, 50, 50, 50, 50, 50, 50],
   [10, 10, 20, 30, 30, 20, 10, 10],
   [5, 5, 10, 25, 25, 10, 5, 5],
   [0, 0, 0, 20, 20, 0, 0, 0],
   [5, -5, -10, 0, 0, -10, -5, 5],
   [5, 10, 10, -20, -20, 10, 10, 5],
   [0, 0, 0, 0, 0, 0, 0, 0]]

/-- AIPlayer.position_tables[KNIGHT]. -/
def knightTable : List (List Int) :=
  [[-50, -40, -30, -30, -30, -30, -40, -50],
   [-40, -20, 0, 0, 0, 0, -20, -40],
   [-30, 0, 10, 15, 15, 10, 0, -30],
   [-30, 5, 15, 20, 20, 15, 5, -30],
   [-30, 0, 15, 20, 20, 15, 0, -30],
   [-30, 5, 10, 15, 15, 10, 5, -30],
   [-40, -20, 0, 5, 5, 0, -20, -40],
   [-50, -40, -30, -30, -30, -30, -40, -50]]

/-- AIPlayer.position_tables[BISHOP]. -/
def bishopTable : List (List Int) :=
  [[-20, -10, -10, -10, -10, -10, -10, -20],
   [-10, 0, 0, 0, 0, 0, 0, -10],
   [-10, 0, 5, 10, 10, 5, 0, -10],
   [-10, 5, 5, 10, 10, 5, 5, -10],
   [-10, 0, 10, 10, 10, 10, 0, -10],
   [-10, 10, 10, 10, 10, 10, 10, -10],
   [-10, 5, 0, 0, 0, 0, 5, -10],
   [-20, -10, -10, -10, -10, -10, -10, -20]]

/-- AIPlayer.position_tables[ROOK]. -/
def rookTable : List (List Int) :=
  [[0, 0, 0, 5, 5, 0, 0, 0],
   [5, 10, 10, 10, 10, 10, 10, 5],
   [-5, 0, 0, 0, 0, 0, 0, -5],
   [-5, 0, 0, 0, 0, 0, 0, -5],
   [-5, 0, 0, 0, 0, 0, 0, -5],
   [-5, 0, 0, 0, 0, 0, 0, -5],
   [-5, 0, 0, 0, 0, 0, 0, -5],
   [0, 0, 0, 5, 5, 0, 0, 0]]

/-- AIPlayer.position_tables[QUEEN]. -/
def queenTable : List (List Int) :=
  [[-20, -10, -10, -5, -5, -10, -10, -20],
   [-10, 0, 0, 0, 0, 0, 0, -10],
   [-10, 0, 5, 5, 5, 5, 0, -10],
   [-5, 0, 5, 5, 5, 5, 0, -5],
   [0, 0, 5, 5, 5, 5, 0, -5],
   [-10, 5, 5, 5, 5, 5, 0, -10],
   [-10, 0, 5, 0, 0, 0, 0, -10],
   [-20, -10, -10, -5, -5, -10, -10, -20]]

/-- AIPlayer.king_tables['middlegame']. -/
def kingMiddlegameTable : List (List Int) :=
  [[-30, -40, -40, -50, -50, -40, -40, -30],
   [-30, -40, -40, -50, -50, -40, -40, -30],
   [-30, -40, -40, -50, -50, -40, -40, -30],
   [-30, -40, -40, -50, -50, -40, -40, -30],
   [-20, -30, -30, -40, -40, -30, -30, -20],
   [-10, -20, -20, -20, -20, -20, -20, -10],
   [20, 20, 0, 0, 0, 0, 20, 20],
   [20, 30, 10, 0, 0, 10, 30, 20]]

/-- AIPlayer.king_tables['endgame']. -/
def kingEndgameTable : List (List Int) :=
  [[-50, -40, -30, -20, -20, -30, -40, -50],
   [-30, -20, -10, 0, 0, -10, -20, -30],
   [-30, -10, 20, 30, 30, 20, -10, -30],
   [-30, -10, 30, 40, 40, 30, -10, -30],
   [-30, -10, 30, 40, 40, 30, -10, -30],
   [-30, -10, 20, 30, 30, 20, -10, -30],
   [-30, -30, 0, 0, 0, 0, -30, -30],
   [-50, -30, -30, -30, -30, -30, -30, -50]]

/-- Python `table[row][col]` on the 8x8 tables (indices are in range at
every use site since positions are). -/
def tableAt (t : List (List Int)) (row col : Int) : Int :=
  (t.getD row.toNat []).getD col.toNat 0

/-- AIPlayer._get_position_value: vertical mirror for black, king table
choice by endgame flag, all other types from their table (the dict covers
every non-king type, so the `else 0.0` of the source is dead code). -/
def getPositionValue (pt : PieceType) (pos : Position) (c : Color) (isEndgame : Bool) : Int :=
  let row := if c = Color.black then 7 - pos.row else pos.row
  let col := pos.col
  match pt with
  | .king => tableAt (if isEndgame then kingEndgameTable else kingMiddlegameTable) row col
  | .pawn => tableAt pawnTable row col
  | .knight => tableAt knightTable row col
  | .bishop => tableAt bishopTable row col
  | .rook => tableAt rookTable row col
  | .queen => tableAt queenTable row col

/-- AIPlayer._evaluate_position: material plus positional value of every
piece, added for the AI's color and subtracted for the opponent, with the
endgame flag at 10 or fewer pieces on the board. -/
def evaluatePosition (aiColor : Color) (gs : GameState) : Int :=
  let pieces := gs.board.getAllPieces none
  let isEndgame := pieces.length ≤ 10
  pieces.foldl
    (fun score pp =>
      let totalValue := pieceValue pp.2.pieceType + getPositionValue pp.2.pieceType pp.1 pp.2.color isEndgame
      if pp.2.color = aiColor then score + totalValue else score - totalValue)
    0

mutual

/-- AIPlayer._minimax.  `depth == 0 or game_over` returns the static
evaluation without a move; positions without legal moves return the mate /
stalemate sentinels; otherwise the alpha-beta loops below run over the legal
moves.  The Python `depth == 0 or ...` guard is rendered as a match on depth
with the game-over test inside the successor branch, which decides the same
condition.  `none` is the raising promotion run inherited from make_move. -/
def minimax (ai : Color) (gs : GameState) (depth : Nat) (alpha beta : Score)
    (isMaximizing : Bool) : Option (Option Move × Score) :=
  match depth with
  | 0 => some (none, .num (evaluatePosition ai gs))
  | d + 1 =>
    if isGameOver gs then some (none, .num (evaluatePosition ai gs))
    else
      let legalMoves := stateAllLegalMoves gs
      if legalMoves.isEmpty then
        if isKingInCheck gs.board gs.currentTurn then
          some (none, if isMaximizing then .negInf else .posInf)
        else some (none, .num 0)
      else if isMaximizing then maximizingLoop ai gs d legalMoves alpha beta none .negInf
      else minimizingLoop ai gs d legalMoves alpha beta none .posInf
termination_by (depth, 0, 0)
decreasing_by
  all_goals simp_wf
  all_goals first
    | exact Prod.Lex.left _ _ (by omega)
    | exact Prod.Lex.right _ (Prod.Lex.left _ _ (by omega))
    | exact Prod.Lex.right _ (Prod.Lex.right _ (by omega))

/-- The maximizing for-loop of AIPlayer._minimax: execute each move on a
copy, recurse one ply shallower, keep the first strictly-better move, raise
alpha, and break on `beta <= alpha`. -/
def maximizingLoop (ai : Color) (gs : GameState) (d : Nat) (moves : List Move)
    (alpha beta : Score) (bestMove : Option Move) (maxEval : Score) :
    Option (Option Move × Score) :=
  match moves with
  | [] => some (bestMove, maxEval)
  | m :: rest =>
    match makeMove gs.copy m with
    | none => none
    | some (_, newState) =>
      match minimax ai newState d alpha beta false with
      | none => none
      | some (_, evalScore) =>
        let bestMove1 := if Score.blt maxEval evalScore then some m else bestMove
        let maxEval1 := if Score.blt maxEval evalScore then evalScore else maxEval
        let alpha1 := Score.smax alpha evalScore
        if Score.ble beta alpha1 then some (bestMove1, maxEval1)
        else maximizingLoop ai gs d rest alpha1 beta bestMove1 maxEval1
termination_by (d, 1, moves.length)
decreasing_by
  all_goals simp_wf
  all_goals first
    | exact Prod.Lex.left _ _ (by omega)
    | exact Prod.Lex.right _ (Prod.Lex.left _ _ (by omega))
    | exact Prod.Lex.right _ (Prod.Lex.right _ (by omega))

/-- The minimizing for-loop of AIPlayer._minimax, mirror image of the
maximizing one: lower beta and break on `beta <= alpha`. -/
def minimizingLoop (ai : Color) (gs : GameState) (d : Nat) (moves : List Move)
    (alpha beta : Score) (bestMove : Option Move) (minEval : Score) :
    Option (Option Move × Score) :=
  match moves with
  | [] => some (bestMove, minEval)
  | m :: rest =>
    match makeMove gs.copy m with
    | none => none
    | some (_, newState) =>
      match minimax ai newState d alpha beta true with
      | none => none
      | some (_, evalScore) =>
        let bestMove1 := if Score.blt evalScore minEval then some m else bestMove
        let minEval1 := if Score.blt evalScore minEval then evalScore else minEval
        let beta1 := Score.smin beta evalScore
        if Score.ble beta1 alpha then some (bestMove1, minEval1)
        else minimizingLoop ai gs d rest alpha beta1 bestMove1 minEval1
termination_by (d, 1, moves.length)
decreasing_by
  all_goals simp_wf
  all_goals first
    | exact Prod.Lex.left _ _ (by omega)
    | exact Prod.Lex.right _ (Prod.Lex.left _ _ (by omega))
    | exact Prod.Lex.right _ (Prod.Lex.right _ (by omega))

end

/-! Basic lemmas about the board primitives. -/

theorem grid_set_self (b : Board) (p : Position) (v : Option Piece) :
    (b.setPiece p v).grid p = v := by
  simp [Board.setPiece]

theorem grid_set_ne (b : Board) (p : Position) (v : Option Piece) {q : Position}
    (h : q ≠ p) : (b.setPiece p v).grid q = b.grid q := by
  simp [Board.setPiece, h]

theorem grid_move (b : Board) (fromPos toPos q : Position) :
    (b.movePiece fromPos toPos).grid q =
      if q = toPos then b.grid fromPos else if q = fromPos then none else b.grid q := by
  simp [Board.movePiece, Board.setPiece]

theorem set_castlingRights (b : Board) (p : Position) (v : Option Piece) :
    (b.setPiece p v).castlingRights = b.castlingRights := rfl

theorem set_enPassantTarget (b : Board) (p : Position) (v : Option Piece) :
    (b.setPiece p v).enPassantTarget = b.enPassantTarget := rfl

theorem move_castlingRights (b : Board) (fromPos toPos : Position) :
    (b.movePiece fromPos toPos).castlingRights = b.castlingRights := rfl

theorem move_enPassantTarget (b : Board) (fromPos toPos : Position) :
    (b.movePiece fromPos toPos).enPassantTarget = b.enPassantTarget := rfl

/-- Membership in get_all_pieces pins down the grid content and the color
filter. -/
theorem mem_getAllPieces {b : Board} {co : Option Color} {pp : Position × Piece}
    (h : pp ∈ b.getAllPieces co) :
    b.grid pp.1 = some pp.2 ∧ (co = none ∨ co = some pp.2.color) := by
  unfold Board.getAllPieces at h
  rw [List.mem_flatMap] at h
  obtain ⟨r, -, hr⟩ := h
  rw [List.mem_filterMap] at hr
  obtain ⟨c, -, hc⟩ := hr
  split at hc
  next piece hg =>
    split at hc
    next hco =>
      injection hc with hc
      subst hc
      exact ⟨hg, hco⟩
    next => exact Option.noConfusion hc
  next => exact Option.noConfusion hc

/-- Shape facts about every move the pseudo-legal generator can emit for
`piece` standing at `pos` on `b`.  These are exactly the facts the undo
analysis needs: who is recorded as captured, what occupies the target
square, and the coordinate relations of the special moves. -/
def MoveOK (b : Board) (piece : Piece) (pos : Position) (m : Move) : Prop :=
  m.fromPos = pos ∧
  match m.moveType with
  | .normal => m.capturedPiece = none ∧ b.grid m.toPos = none
  | .capture =>
      ∃ tp, b.grid m.toPos = some tp ∧ tp.color ≠ piece.color ∧ m.capturedPiece = some tp
  | .pawnDouble => m.capturedPiece = none ∧ b.grid m.toPos = none
  | .enPassant =>
      b.grid m.toPos = none ∧ m.capturedPiece = b.grid ⟨pos.row, m.toPos.col⟩ ∧
        m.toPos.row ≠ pos.row ∧ m.toPos.col ≠ pos.col
  | .promotion =>
      piece.pieceType = .pawn ∧ m.promotionPiece.isSome ∧
        ((b.grid m.toPos = none ∧ m.capturedPiece = none) ∨
          ∃ tp, b.grid m.toPos = some tp ∧ tp.color ≠ piece.color ∧ m.capturedPiece = some tp)
  | .castlingKingside => m.capturedPiece = none ∧ m.toPos = ⟨pos.row, pos.col + 2⟩
  | .castlingQueenside => m.capturedPiece = none ∧ m.toPos = ⟨pos.row, pos.col - 2⟩

theorem moveOK_of_mem_slideRay {b : Board} {piece : Piece} {pos : Position}
    {d : Int × Int} {m : Move} :
    ∀ {fuel : Nat} {cur : Position}, m ∈ slideRay b piece pos d fuel cur →
      MoveOK b piece pos m := by
  intro fuel
  induction fuel with
  | zero => intro cur h; simp [slideRay] at h
  | succ n ih =>
    intro cur h
    simp only [slideRay] at h
    split at h
    · split at h
      next hg =>
        rcases List.mem_cons.mp h with rfl | h
        · exact ⟨rfl, rfl, hg⟩
        · exact ih h
      next tp hg =>
        split at h
        next hne =>
          rcases List.mem_singleton.mp h with rfl
          exact ⟨rfl, tp, hg, hne, rfl⟩
        next => simp at h
    · simp at h

theorem moveOK_of_offsetMove {b : Board} {piece : Piece} {pos : Position}
    {d : Int × Int} {m : Move} (h : offsetMove b piece pos d = some m) :
    MoveOK b piece pos m := by
  simp only [offsetMove] at h
  split at h
  · split at h
    next hg =>
      injection h with h
      subst h
      exact ⟨rfl, rfl, hg⟩
    next tp hg =>
      split at h
      next hne =>
        injection h with h
        subst h
        exact ⟨rfl, tp, hg, hne, rfl⟩
      next => exact Option.noConfusion h
  · exact Option.noConfusion h

theorem moveOK_of_mem_castlingCandidates {b : Board} {piece : Piece} {pos : Position}
    {m : Move} (h : m ∈ kingCastlingCandidates b piece pos) : MoveOK b piece pos m := by
  simp only [kingCastlingCandidates] at h
  rcases List.mem_append.mp h with h | h
  all_goals
    split at h
    case isTrue =>
      simp at h
      rcases h with ⟨-, rfl⟩
      exact ⟨rfl, rfl, rfl⟩
    case isFalse => simp at h

theorem moveOK_of_mem_pawnMoves {b : Board} {piece : Piece} {pos : Position} {m : Move}
    (hp : piece.pieceType = .pawn) (h : m ∈ pawnMoves piece pos b) :
    MoveOK b piece pos m := by
  have hcl : piece.color = Color.white ∨ piece.color = Color.black := by
    cases piece.color <;> simp
  simp only [pawnMoves] at h
  set d := (if piece.color = Color.white then (-1 : Int) else 1) with hd
  set s := (if piece.color = Color.white then (6 : Int) else 1) with hs
  have hdval : d = -1 ∨ d = 1 := by
    rcases hcl with hc | hc <;> rw [hd, hc] <;> simp
  rcases List.mem_append.mp h with h | h
  · -- forward part: single pushes (plain or promotion) and the double push
    split at h
    · split at h
      next hg =>
        rcases List.mem_append.mp h with h | h
        · split at h
          · rcases List.mem_map.mp h with ⟨pp, -, rfl⟩
            exact ⟨rfl, hp, rfl, Or.inl ⟨hg, rfl⟩⟩
          · rcases List.mem_singleton.mp h with rfl
            exact ⟨rfl, rfl, hg⟩
        · split at h
          · split at h
            next hg2 =>
              rcases List.mem_singleton.mp h with rfl
              exact ⟨rfl, rfl, hg2⟩
            next => simp at h
          · simp at h
      next => simp at h
    · simp at h
  · -- capture part: plain captures, capture promotions and en passant
    rw [List.mem_flatMap] at h
    obtain ⟨colDelta, hcd, h⟩ := h
    have hcd : colDelta = -1 ∨ colDelta = 1 := by simpa using hcd
    split at h
    · split at h
      next tp hg =>
        split at h
        next hne =>
          split at h
          · rcases List.mem_map.mp h with ⟨pp, -, rfl⟩
            exact ⟨rfl, hp, rfl, Or.inr ⟨tp, hg, hne, rfl⟩⟩
          · rcases List.mem_singleton.mp h with rfl
            exact ⟨rfl, tp, hg, hne, rfl⟩
        next => simp at h
      next hg =>
        split at h
        · rcases List.mem_singleton.mp h with rfl
          exact ⟨rfl, hg, rfl, by simp only []; omega, by simp only []; omega⟩
        · simp at h
    · simp at h

/-- Every pseudo-legal move satisfies the shape facts. -/
theorem moveOK_of_mem_possible {b : Board} {piece : Piece} {pos : Position} {m : Move}
    (h : m ∈ getPossibleMoves piece pos b) : MoveOK b piece pos m := by
  unfold getPossibleMoves at h
  rcases hpt : piece.pieceType <;> rw [hpt] at h
  case pawn => exact moveOK_of_mem_pawnMoves hpt h
  case knight =>
    rcases List.mem_filterMap.mp h with ⟨d, -, hd⟩
    exact moveOK_of_offsetMove hd
  case king =>
    rcases List.mem_append.mp h with h | h
    · rcases List.mem_filterMap.mp h with ⟨d, -, hd⟩
      exact moveOK_of_offsetMove hd
    · exact moveOK_of_mem_castlingCandidates h
  all_goals
    rcases List.mem_flatMap.mp h with ⟨d, -, hd⟩
    exact moveOK_of_mem_slideRay hd

/-! Small utility lemmas about the state operations. -/

theorem Color.opposite_opposite (c : Color) : c.opposite.opposite = c := by
  cases c <;> rfl

theorem option_getD_false_eq_true {o : Option Bool} (h : o.getD false = true) :
    o = some true := by
  cases o with
  | none => simp at h
  | some b => cases b with
    | true => rfl
    | false => simp at h

theorem updateGameStatus_fields (gs : GameState) :
    (updateGameStatus gs).board = gs.board ∧
      (updateGameStatus gs).currentTurn = gs.currentTurn ∧
      (updateGameStatus gs).moveHistory = gs.moveHistory ∧
      (updateGameStatus gs).halfMoveClock = gs.halfMoveClock ∧
      (updateGameStatus gs).fullMoveNumber = gs.fullMoveNumber ∧
      (updateGameStatus gs).redoStack = gs.redoStack ∧
      (updateGameStatus gs).selectedPosition = gs.selectedPosition := by
  unfold updateGameStatus
  repeat' split
  all_goals exact ⟨rfl, rfl, rfl, rfl, rfl, rfl, rfl⟩

theorem pushCaptured_board (gs : GameState) (c : Color) (k : PieceType) :
    (pushCaptured gs c k).board = gs.board := by
  cases c <;> rfl

theorem pushCaptured_fields (gs : GameState) (c : Color) (k : PieceType) :
    (pushCaptured gs c k).moveHistory = gs.moveHistory ∧
      (pushCaptured gs c k).halfMoveClock = gs.halfMoveClock ∧
      (pushCaptured gs c k).fullMoveNumber = gs.fullMoveNumber ∧
      (pushCaptured gs c k).currentTurn = gs.currentTurn := by
  cases c <;> exact ⟨rfl, rfl, rfl, rfl⟩

theorem removeFromLedger_board (gs : GameState) (pa : Option Piece) (cap : Piece) :
    (removeFromLedger gs pa cap).board = gs.board := by
  unfold removeFromLedger
  rcases pa with - | ⟨pc, pk⟩
  · rfl
  · cases pc <;> rfl

/-- Membership in the state's legal move list pins down the mover, the color,
the generator shape facts and the legality verdict. -/
theorem legal_decomp {gs : GameState} {m : Move} (hm : m ∈ stateAllLegalMoves gs) :
    ∃ piece, gs.board.grid m.fromPos = some piece ∧ piece.color = gs.currentTurn ∧
      MoveOK gs.board piece m.fromPos m ∧ isMoveLegalE gs.board m = some true := by
  unfold stateAllLegalMoves getAllLegalMoves at hm
  rcases List.mem_flatMap.mp hm with ⟨pp, hpp, hmem⟩
  obtain ⟨hg, hco⟩ := mem_getAllPieces hpp
  unfold getLegalMoves at hmem
  rw [hg] at hmem
  rcases List.mem_filter.mp hmem with ⟨hposs, hlegb⟩
  have hok := moveOK_of_mem_possible hposs
  have hfrom : m.fromPos = pp.1 := hok.1
  have hcol : pp.2.color = gs.currentTurn := by
    rcases hco with hco | hco
    · exact Option.noConfusion hco
    · injection hco with hco
      exact hco.symm
  refine ⟨pp.2, ?_, hcol, ?_, option_getD_false_eq_true hlegb⟩
  · rw [hfrom]; exact hg
  · rw [← hfrom] at hok
    exact hok

/-- Inversion helper for the guard-cascade shape of the validator. -/
theorem ite_false_true {c : Prop} [Decidable c] {y : Bool}
    (h : (if c then false else y) = true) : ¬c ∧ y = true := by
  split at h
  · exact absurd h (by simp)
  · exact ⟨by assumption, h⟩

/-- A true verdict of the castling validator yields the emptiness of the
kingside squares between king and rook that the undo analysis needs. -/
theorem validateCastling_clear {b : Board} {m : Move} {c : Color}
    (hv : validateCastling b m c = true)
    (hks : (m.moveType == MoveType.castlingKingside) = true) :
    b.grid ⟨m.fromPos.row, 5⟩ = none ∧ b.grid ⟨m.fromPos.row, 6⟩ = none := by
  unfold validateCastling at hv
  obtain ⟨-, hv⟩ := ite_false_true hv
  simp only [hks] at hv
  obtain ⟨-, hv⟩ := ite_false_true hv
  obtain ⟨hclear, -⟩ := ite_false_true hv
  have hcc : isCastlingPathClear b m.fromPos.row (getCastlingParams true) = true := by
    simpa using hclear
  simp [isCastlingPathClear, getCastlingParams] at hcc
  exact hcc

/-- Queenside counterpart of validateCastling_clear. -/
theorem validateCastling_clear_q {b : Board} {m : Move} {c : Color}
    (hv : validateCastling b m c = true)
    (hmt : m.moveType = MoveType.castlingQueenside) :
    b.grid ⟨m.fromPos.row, 1⟩ = none ∧ b.grid ⟨m.fromPos.row, 2⟩ = none ∧
      b.grid ⟨m.fromPos.row, 3⟩ = none := by
  have hks : (m.moveType == MoveType.castlingKingside) = false := by
    rw [hmt]; rfl
  unfold validateCastling at hv
  obtain ⟨-, hv⟩ := ite_false_true hv
  simp only [hks] at hv
  obtain ⟨-, hv⟩ := ite_false_true hv
  obtain ⟨hclear, -⟩ := ite_false_true hv
  have hcc : isCastlingPathClear b m.fromPos.row (getCastlingParams false) = true := by
    simpa using hclear
  simp [isCastlingPathClear, getCastlingParams] at hcc
  exact hcc

/-! Shape lemmas for the make / undo round trip. -/

theorem updateCastlingRightsOnMove_grid (b : Board) (m : Move) (piece : Piece) :
    (updateCastlingRightsOnMove b m piece).grid = b.grid := by
  unfold updateCastlingRightsOnMove
  repeat' split
  all_goals rfl

theorem updateCastlingRightsOnMove_ep (b : Board) (m : Move) (piece : Piece) :
    (updateCastlingRightsOnMove b m piece).enPassantTarget = b.enPassantTarget := by
  unfold updateCastlingRightsOnMove
  repeat' split
  all_goals rfl

theorem removeFromLedger_currentTurn (gs : GameState) (pa : Option Piece) (cap : Piece) :
    (removeFromLedger gs pa cap).currentTurn = gs.currentTurn := by
  unfold removeFromLedger
  rcases pa with - | ⟨pc, pk⟩
  · rfl
  · cases pc <;> rfl

theorem removeFromLedger_fullMoveNumber (gs : GameState) (pa : Option Piece) (cap : Piece) :
    (removeFromLedger gs pa cap).fullMoveNumber = gs.fullMoveNumber := by
  unfold removeFromLedger
  rcases pa with - | ⟨pc, pk⟩
  · rfl
  · cases pc <;> rfl

theorem removeFromLedger_halfMoveClock (gs : GameState) (pa : Option Piece) (cap : Piece) :
    (removeFromLedger gs pa cap).halfMoveClock = gs.halfMoveClock := by
  unfold removeFromLedger
  rcases pa with - | ⟨pc, pk⟩
  · rfl
  · cases pc <;> rfl

theorem removeFromLedger_moveHistory (gs : GameState) (pa : Option Piece) (cap : Piece) :
    (removeFromLedger gs pa cap).moveHistory = gs.moveHistory := by
  unfold removeFromLedger
  rcases pa with - | ⟨pc, pk⟩
  · rfl
  · cases pc <;> rfl

theorem removeFromLedger_redoStack (gs : GameState) (pa : Option Piece) (cap : Piece) :
    (removeFromLedger gs pa cap).redoStack = gs.redoStack := by
  unfold removeFromLedger
  rcases pa with - | ⟨pc, pk⟩
  · rfl
  · cases pc <;> rfl

theorem reverseMove_fields (g : GameState) (m : Move) :
    (reverseMove g m).currentTurn = g.currentTurn ∧
      (reverseMove g m).fullMoveNumber = g.fullMoveNumber ∧
      (reverseMove g m).halfMoveClock = g.halfMoveClock ∧
      (reverseMove g m).moveHistory = g.moveHistory ∧
      (reverseMove g m).redoStack = g.redoStack := by
  unfold reverseMove
  cases hmt : m.moveType
  all_goals
    first
      | exact ⟨rfl, rfl, rfl, rfl, rfl⟩
      | (rcases hat : g.board.grid m.toPos with - | p <;>
         rcases m.capturedPiece with - | cp <;>
         simp only [hat] <;>
         refine ⟨?_, ?_, ?_, ?_, ?_⟩ <;>
         first
           | rfl
           | trivial
           | apply removeFromLedger_currentTurn
           | apply removeFromLedger_fullMoveNumber
           | apply removeFromLedger_halfMoveClock
           | apply removeFromLedger_moveHistory
           | apply removeFromLedger_redoStack)

/-- The board produced by _reverse_move depends only on the incoming board;
this rewrites it to an explicit board expression. -/
theorem reverseMove_board (g : GameState) (m : Move) :
    (reverseMove g m).board =
      match m.moveType with
      | .castlingKingside =>
          (g.board.movePiece m.toPos m.fromPos).movePiece ⟨m.toPos.row, 5⟩ ⟨m.toPos.row, 7⟩
      | .castlingQueenside =>
          (g.board.movePiece m.toPos m.fromPos).movePiece ⟨m.toPos.row, 3⟩ ⟨m.toPos.row, 0⟩
      | .enPassant =>
          (match m.capturedPiece with
           | some cp =>
               (g.board.movePiece m.toPos m.fromPos).setPiece
                 ⟨m.fromPos.row, m.toPos.col⟩ (some cp)
           | none => g.board.movePiece m.toPos m.fromPos)
      | .promotion =>
          (let b2 :=
            match g.board.grid m.toPos with
            | some p => (g.board.removePiece m.toPos).setPiece m.fromPos (some ⟨p.color, .pawn⟩)
            | none => g.board.removePiece m.toPos
          match m.capturedPiece with
          | some cp => b2.setPiece m.toPos (some cp)
          | none => b2)
      | _ =>
          (match m.capturedPiece with
           | some cp => (g.board.movePiece m.toPos m.fromPos).setPiece m.toPos (some cp)
           | none => g.board.movePiece m.toPos m.fromPos) := by
  unfold reverseMove
  cases hmt : m.moveType
  case castlingKingside => rfl
  case castlingQueenside => rfl
  case enPassant =>
    rcases m.capturedPiece with - | cp
    · rfl
    · rw [removeFromLedger_board]
  case promotion =>
    rcases hat : g.board.grid m.toPos with - | p <;>
      rcases m.capturedPiece with - | cp <;>
      simp only [hat] <;>
      first
        | rfl
        | rw [removeFromLedger_board]
  all_goals
    rcases m.capturedPiece with - | cp
    · rfl
    · rw [removeFromLedger_board]

/-- GameState.make_move on a move that passes all three checks: the result
is true together with the executed state carrying the appended history
entry, the updated clocks, the flipped turn and the recomputed status. -/
theorem makeMove_success_shape (gs : GameState) (m : Move) (piece : Piece) (ge : GameState)
    (hfromEq : gs.board.grid m.fromPos = some piece)
    (hcol : piece.color = gs.currentTurn)
    (hleg : isMoveLegalE gs.board m = some true)
    (hexec : executeMove gs m = some ge) :
    makeMove gs m = some (true, updateGameStatus
      { ge with
          moveHistory := ge.moveHistory ++
            [⟨m, gs.board.castlingRights, gs.board.enPassantTarget, gs.halfMoveClock⟩],
          redoStack := [],
          halfMoveClock :=
            if piece.pieceType = PieceType.pawn ∨ m.moveType = MoveType.capture then 0
            else ge.halfMoveClock + 1,
          fullMoveNumber :=
            if gs.currentTurn = Color.black then ge.fullMoveNumber + 1 else ge.fullMoveNumber,
          currentTurn := gs.currentTurn.opposite }) := by
  unfold makeMove
  simp only [hfromEq]
  rw [if_neg (show ¬(piece.color ≠ gs.currentTurn) from fun hne => hne hcol)]
  simp only [hleg, hexec]
  rfl

theorem updateGameStatus_board (gs : GameState) :
    (updateGameStatus gs).board = gs.board := (updateGameStatus_fields gs).1

theorem updateGameStatus_currentTurn (gs : GameState) :
    (updateGameStatus gs).currentTurn = gs.currentTurn := (updateGameStatus_fields gs).2.1

theorem updateGameStatus_moveHistory (gs : GameState) :
    (updateGameStatus gs).moveHistory = gs.moveHistory := (updateGameStatus_fields gs).2.2.1

theorem updateGameStatus_halfMoveClock (gs : GameState) :
    (updateGameStatus gs).halfMoveClock = gs.halfMoveClock :=
  (updateGameStatus_fields gs).2.2.2.1

theorem updateGameStatus_fullMoveNumber (gs : GameState) :
    (updateGameStatus gs).fullMoveNumber = gs.fullMoveNumber :=
  (updateGameStatus_fields gs).2.2.2.2.1

theorem updateGameStatus_redoStack (gs : GameState) :
    (updateGameStatus gs).redoStack = gs.redoStack :=
  (updateGameStatus_fields gs).2.2.2.2.2.1

theorem reverseMove_currentTurn (g : GameState) (m : Move) :
    (reverseMove g m).currentTurn = g.currentTurn := (reverseMove_fields g m).1

theorem reverseMove_fullMoveNumber (g : GameState) (m : Move) :
    (reverseMove g m).fullMoveNumber = g.fullMoveNumber := (reverseMove_fields g m).2.1

theorem reverseMove_halfMoveClock (g : GameState) (m : Move) :
    (reverseMove g m).halfMoveClock = g.halfMoveClock := (reverseMove_fields g m).2.2.1

/-- GameState.undo_move on a state whose history ends in `snap`: the result
reports success, restores the snapshot fields, flips the turn, adjusts the
full-move number, and carries the board of _reverse_move. -/
theorem undoMove_fields (st : GameState) (l : List HistMove) (snap : HistMove)
    (hh : st.moveHistory = l ++ [snap]) :
    (undoMove st).1 = true ∧
      (undoMove st).2.board.castlingRights = snap.prevCastlingRights ∧
      (undoMove st).2.board.enPassantTarget = snap.prevEnPassant ∧
      (undoMove st).2.halfMoveClock = snap.prevHalfMoveClock ∧
      (undoMove st).2.currentTurn = st.currentTurn.opposite ∧
      (undoMove st).2.fullMoveNumber =
        (if st.currentTurn.opposite = Color.black then st.fullMoveNumber - 1
         else st.fullMoveNumber) ∧
      (undoMove st).2.board.grid =
        (reverseMove { st with moveHistory := l, redoStack := st.redoStack ++ [snap] }
          snap.move).board.grid := by
  unfold undoMove
  simp only [hh, List.getLast?_concat, List.dropLast_concat]
  refine ⟨?_, ?_, ?_, ?_, ?_, ?_, ?_⟩ <;>
    simp only [apply_ite (GameState.board), apply_ite (GameState.currentTurn),
      apply_ite (GameState.fullMoveNumber), apply_ite (GameState.halfMoveClock),
      apply_ite (Board.grid), apply_ite (Board.castlingRights),
      apply_ite (Board.enPassantTarget),
      updateGameStatus_board, updateGameStatus_currentTurn,
      updateGameStatus_halfMoveClock, updateGameStatus_fullMoveNumber,
      reverseMove_currentTurn, reverseMove_fullMoveNumber, reverseMove_halfMoveClock,
      ite_self] <;>
    first
      | trivial
      | rfl
      | (split <;> rfl)

/-- The success case of make_move, with the result state described field by
field. -/
theorem makeMove_success_fields (gs : GameState) (m : Move) (piece : Piece) (ge : GameState)
    (hfromEq : gs.board.grid m.fromPos = some piece)
    (hcol : piece.color = gs.currentTurn)
    (hleg : isMoveLegalE gs.board m = some true)
    (hexec : executeMove gs m = some ge) :
    ∃ st, makeMove gs m = some (true, st) ∧
      st.board = ge.board ∧
      st.moveHistory = ge.moveHistory ++
        [⟨m, gs.board.castlingRights, gs.board.enPassantTarget, gs.halfMoveClock⟩] ∧
      st.redoStack = [] ∧
      st.currentTurn = gs.currentTurn.opposite ∧
      st.fullMoveNumber =
        (if gs.currentTurn = Color.black then ge.fullMoveNumber + 1 else ge.fullMoveNumber) := by
  refine ⟨_, makeMove_success_shape gs m piece ge hfromEq hcol hleg hexec, ?_, ?_, ?_, ?_, ?_⟩
  · rw [updateGameStatus_board]
  · rw [updateGameStatus_moveHistory]
  · rw [updateGameStatus_redoStack]
  · rw [updateGameStatus_currentTurn]
  · rw [updateGameStatus_fullMoveNumber]

theorem pushCaptured_moveHistory (gs : GameState) (c : Color) (k : PieceType) :
    (pushCaptured gs c k).moveHistory = gs.moveHistory := by
  cases c <;> rfl

theorem pushCaptured_fullMoveNumber (gs : GameState) (c : Color) (k : PieceType) :
    (pushCaptured gs c k).fullMoveNumber = gs.fullMoveNumber := by
  cases c <;> rfl

/-- _execute_move board effect for NORMAL / CAPTURE / PAWN_DOUBLE: the board
carries exactly the move_piece relocation (the en-passant and castling-rights
bookkeeping does not touch the grid). -/
theorem executeMove_board_default (gs : GameState) (m : Move) (piece : Piece)
    (hfromEq : gs.board.grid m.fromPos = some piece)
    (hmt : m.moveType = MoveType.normal ∨ m.moveType = MoveType.capture ∨
      m.moveType = MoveType.pawnDouble) :
    ∃ ge, executeMove gs m = some ge ∧ ge.moveHistory = gs.moveHistory ∧
      ge.fullMoveNumber = gs.fullMoveNumber ∧
      ge.board.grid = (gs.board.movePiece m.fromPos m.toPos).grid := by
  unfold executeMove
  simp only [hfromEq]
  rcases hmt with hmt | hmt | hmt <;> rw [hmt]
  · rw [if_neg (by decide :
      ¬(MoveType.normal = MoveType.capture ∨ MoveType.normal = MoveType.promotion))]
    refine ⟨_, rfl, rfl, rfl, ?_⟩
    rw [updateCastlingRightsOnMove_grid]
    rfl
  · rw [if_pos (by decide :
      MoveType.capture = MoveType.capture ∨ MoveType.capture = MoveType.promotion)]
    rcases hat : gs.board.grid m.toPos with - | cp <;> simp only [hat]
    · refine ⟨_, rfl, rfl, rfl, ?_⟩
      rw [updateCastlingRightsOnMove_grid]
      rfl
    · refine ⟨_, rfl, ?_, ?_, ?_⟩
      · exact pushCaptured_moveHistory gs piece.color cp.pieceType
      · exact pushCaptured_fullMoveNumber gs piece.color cp.pieceType
      · rw [updateCastlingRightsOnMove_grid, pushCaptured_board]
        rfl
  · rw [if_neg (by decide :
      ¬(MoveType.pawnDouble = MoveType.capture ∨ MoveType.pawnDouble = MoveType.promotion))]
    simp only [executePawnDouble]
    refine ⟨_, rfl, rfl, rfl, ?_⟩
    rw [updateCastlingRightsOnMove_grid]
    rfl

/-- _execute_move board effect for EN_PASSANT: relocation plus removal of
the bypassed pawn square. -/
theorem executeMove_board_enPassant (gs : GameState) (m : Move) (piece : Piece)
    (hfromEq : gs.board.grid m.fromPos = some piece)
    (hmt : m.moveType = MoveType.enPassant) :
    ∃ ge, executeMove gs m = some ge ∧ ge.moveHistory = gs.moveHistory ∧
      ge.fullMoveNumber = gs.fullMoveNumber ∧
      ge.board.grid =
        ((gs.board.movePiece m.fromPos m.toPos).removePiece
          ⟨m.fromPos.row, m.toPos.col⟩).grid := by
  unfold executeMove
  simp only [hfromEq]
  rw [hmt]
  rw [if_neg (by decide :
    ¬(MoveType.enPassant = MoveType.capture ∨ MoveType.enPassant = MoveType.promotion))]
  simp only [executeEnPassant]
  rcases hat : gs.board.grid ⟨m.fromPos.row, m.toPos.col⟩ with - | cp <;> simp only [hat]
  · refine ⟨_, rfl, rfl, rfl, ?_⟩
    rw [updateCastlingRightsOnMove_grid]
    rfl
  · refine ⟨_, rfl, ?_, ?_, ?_⟩
    · exact pushCaptured_moveHistory _ piece.color cp.pieceType
    · exact pushCaptured_fullMoveNumber _ piece.color cp.pieceType
    · rw [updateCastlingRightsOnMove_grid, pushCaptured_board]
      rfl

/-- _execute_move board effect for PROMOTION: remove the pawn, place the
promoted piece. -/
theorem executeMove_board_promotion (gs : GameState) (m : Move) (piece : Piece)
    (pt : PieceType)
    (hfromEq : gs.board.grid m.fromPos = some piece)
    (hmt : m.moveType = MoveType.promotion)
    (hpp : m.promotionPiece = some pt) :
    ∃ ge, executeMove gs m = some ge ∧ ge.moveHistory = gs.moveHistory ∧
      ge.fullMoveNumber = gs.fullMoveNumber ∧
      ge.board.grid =
        ((gs.board.removePiece m.fromPos).setPiece m.toPos
          (some ⟨piece.color, pt⟩)).grid := by
  unfold executeMove
  simp only [hfromEq]
  rw [hmt]
  rw [if_pos (by decide :
    MoveType.promotion = MoveType.capture ∨ MoveType.promotion = MoveType.promotion)]
  simp only [executePromotion, hpp]
  rcases hat : gs.board.grid m.toPos with - | cp <;> simp only [hat]
  · refine ⟨_, rfl, rfl, rfl, ?_⟩
    rw [updateCastlingRightsOnMove_grid]
    rfl
  · refine ⟨_, rfl, ?_, ?_, ?_⟩
    · exact pushCaptured_moveHistory gs piece.color cp.pieceType
    · exact pushCaptured_fullMoveNumber gs piece.color cp.pieceType
    · rw [updateCastlingRightsOnMove_grid, pushCaptured_board]
      rfl

/-- _execute_move board effect for CASTLING_KINGSIDE: king relocation then
rook relocation from column 7 to column 5. -/
theorem executeMove_board_castlingK (gs : GameState) (m : Move) (piece : Piece)
    (hfromEq : gs.board.grid m.fromPos = some piece)
    (hmt : m.moveType = MoveType.castlingKingside) :
    ∃ ge, executeMove gs m = some ge ∧ ge.moveHistory = gs.moveHistory ∧
      ge.fullMoveNumber = gs.fullMoveNumber ∧
      ge.board.grid =
        ((gs.board.movePiece m.fromPos m.toPos).movePiece
          ⟨m.fromPos.row, 7⟩ ⟨m.fromPos.row, 5⟩).grid := by
  unfold executeMove
  simp only [hfromEq]
  rw [hmt]
  rw [if_neg (by decide :
    ¬(MoveType.castlingKingside = MoveType.capture ∨
      MoveType.castlingKingside = MoveType.promotion))]
  simp only [executeCastlingKingside]
  refine ⟨_, rfl, rfl, rfl, ?_⟩
  rw [updateCastlingRightsOnMove_grid]
  rfl

/-- _execute_move board effect for CASTLING_QUEENSIDE: king relocation then
rook relocation from column 0 to column 3. -/
theorem executeMove_board_castlingQ (gs : GameState) (m : Move) (piece : Piece)
    (hfromEq : gs.board.grid m.fromPos = some piece)
    (hmt : m.moveType = MoveType.castlingQueenside) :
    ∃ ge, executeMove gs m = some ge ∧ ge.moveHistory = gs.moveHistory ∧
      ge.fullMoveNumber = gs.fullMoveNumber ∧
      ge.board.grid =
        ((gs.board.movePiece m.fromPos m.toPos).movePiece
          ⟨m.fromPos.row, 0⟩ ⟨m.fromPos.row, 3⟩).grid := by
  unfold executeMove
  simp only [hfromEq]
  rw [hmt]
  rw [if_neg (by decide :
    ¬(MoveType.castlingQueenside = MoveType.capture ∨
      MoveType.castlingQueenside = MoveType.promotion))]
  simp only [executeCastlingQueenside]
  refine ⟨_, rfl, rfl, rfl, ?_⟩
  rw [updateCastlingRightsOnMove_grid]
  rfl

/-- For castling-typed moves is_move_legal is exactly the validator verdict. -/
theorem isMoveLegalE_castling_true {b : Board} {m : Move} {piece : Piece}
    (hfromEq : b.grid m.fromPos = some piece)
    (hmt : m.moveType = MoveType.castlingKingside ∨ m.moveType = MoveType.castlingQueenside)
    (h : isMoveLegalE b m = some true) : validateCastling b m piece.color = true := by
  unfold isMoveLegalE at h
  simp only [hfromEq] at h
  rw [if_pos hmt] at h
  injection h

/-- Round-trip assembly: once the executed board is known and _reverse_move
is known to restore the squares, make_move followed by undo_move restores
all the claimed state components. -/
theorem c1_assemble (gs : GameState) (m : Move) (piece : Piece) (ge : GameState)
    (hfromEq : gs.board.grid m.fromPos = some piece)
    (hcol : piece.color = gs.currentTurn)
    (hleg : isMoveLegalE gs.board m = some true)
    (hexec : executeMove gs m = some ge)
    (hgh : ge.moveHistory = gs.moveHistory)
    (hgf : ge.fullMoveNumber = gs.fullMoveNumber)
    (hrestore : ∀ g : GameState, g.board = ge.board →
      ∀ p, (reverseMove g m).board.grid p = gs.board.grid p) :
    ∃ gs1, makeMove gs m = some (true, gs1) ∧ (undoMove gs1).1 = true ∧
      (∀ p, (undoMove gs1).2.board.grid p = gs.board.grid p) ∧
      (undoMove gs1).2.board.castlingRights = gs.board.castlingRights ∧
      (undoMove gs1).2.board.enPassantTarget = gs.board.enPassantTarget ∧
      (undoMove gs1).2.halfMoveClock = gs.halfMoveClock ∧
      (undoMove gs1).2.currentTurn = gs.currentTurn ∧
      (undoMove gs1).2.fullMoveNumber = gs.fullMoveNumber := by
  obtain ⟨st, hmk, hstb, hsth, hstr, hstt, hstf⟩ :=
    makeMove_success_fields gs m piece ge hfromEq hcol hleg hexec
  have hh : st.moveHistory = gs.moveHistory ++
      [⟨m, gs.board.castlingRights, gs.board.enPassantTarget, gs.halfMoveClock⟩] := by
    rw [hsth, hgh]
  obtain ⟨hu1, hur, huep, huc, hut, huf, hug⟩ := undoMove_fields st gs.moveHistory _ hh
  refine ⟨st, hmk, hu1, ?_, hur, huep, huc, ?_, ?_⟩
  · intro p
    rw [hug]
    apply hrestore
    exact hstb
  · rw [hut, hstt, Color.opposite_opposite]
  · rw [huf, hstt, Color.opposite_opposite, hstf]
    by_cases hb : gs.currentTurn = Color.black <;> simp [hb, hgf]

theorem grid_set (b : Board) (p : Position) (v : Option Piece) (q : Position) :
    (b.setPiece p v).grid q = if q = p then v else b.grid q := rfl

theorem pos_ne_of_col {p q : Position} (h : p.col ≠ q.col) : p ≠ q :=
  fun he => h (congrArg Position.col he)

theorem pos_ne_of_row {p q : Position} (h : p.row ≠ q.row) : p ≠ q :=
  fun he => h (congrArg Position.row he)

/-- C1, amended.  For every move in the legal move list whose castling moves
start from the king's standard column (column 4, as in every position
reachable from the initial position), make_move succeeds and undo_move
restores the board squares, the castling rights, the en-passant target, the
half-move clock, the side to move and the full-move number exactly. -/
theorem claim_c1_make_undo_roundtrip (gs : GameState) (m : Move)
    (hm : m ∈ stateAllLegalMoves gs)
    (hcastle : (m.moveType = MoveType.castlingKingside ∨
        m.moveType = MoveType.castlingQueenside) → m.fromPos.col = 4) :
    ∃ gs1, makeMove gs m = some (true, gs1) ∧ (undoMove gs1).1 = true ∧
      (∀ p, (undoMove gs1).2.board.grid p = gs.board.grid p) ∧
      (undoMove gs1).2.board.castlingRights = gs.board.castlingRights ∧
      (undoMove gs1).2.board.enPassantTarget = gs.board.enPassantTarget ∧
      (undoMove gs1).2.halfMoveClock = gs.halfMoveClock ∧
      (undoMove gs1).2.currentTurn = gs.currentTurn ∧
      (undoMove gs1).2.fullMoveNumber = gs.fullMoveNumber := by
  obtain ⟨piece, hfromEq, hcol, hok, hleg⟩ := legal_decomp hm
  unfold MoveOK at hok
  rcases hmt : m.moveType
  case normal =>
    rw [hmt] at hok
    obtain ⟨-, hcap, hto⟩ := hok
    obtain ⟨ge, hexec, hgh, hgf, hgridge⟩ :=
      executeMove_board_default gs m piece hfromEq (Or.inl hmt)
    refine c1_assemble gs m piece ge hfromEq hcol hleg hexec hgh hgf ?_
    have hne : m.fromPos ≠ m.toPos := by
      intro he
      rw [he, hto] at hfromEq
      exact Option.noConfusion hfromEq
    intro g hgb p
    rw [reverseMove_board, hmt, hcap, hgb]
    simp only [hgridge, grid_move]
    by_cases h1 : p = m.fromPos <;> by_cases h2 : p = m.toPos <;>
      simp [h1, h2, hne, Ne.symm hne, hto]
  case pawnDouble =>
    rw [hmt] at hok
    obtain ⟨-, hcap, hto⟩ := hok
    obtain ⟨ge, hexec, hgh, hgf, hgridge⟩ :=
      executeMove_board_default gs m piece hfromEq (Or.inr (Or.inr hmt))
    refine c1_assemble gs m piece ge hfromEq hcol hleg hexec hgh hgf ?_
    have hne : m.fromPos ≠ m.toPos := by
      intro he
      rw [he, hto] at hfromEq
      exact Option.noConfusion hfromEq
    intro g hgb p
    rw [reverseMove_board, hmt, hcap, hgb]
    simp only [hgridge, grid_move]
    by_cases h1 : p = m.fromPos <;> by_cases h2 : p = m.toPos <;>
      simp [h1, h2, hne, Ne.symm hne, hto]
  case capture =>
    rw [hmt] at hok
    obtain ⟨-, cp, htoEq, hcc, hcap⟩ := hok
    obtain ⟨ge, hexec, hgh, hgf, hgridge⟩ :=
      executeMove_board_default gs m piece hfromEq (Or.inr (Or.inl hmt))
    refine c1_assemble gs m piece ge hfromEq hcol hleg hexec hgh hgf ?_
    have hne : m.fromPos ≠ m.toPos := by
      intro he
      rw [he, htoEq] at hfromEq
      injection hfromEq with h
      exact hcc (by rw [h])
    intro g hgb p
    rw [reverseMove_board, hmt, hcap, hgb]
    simp only [hgridge, grid_move, grid_set]
    by_cases h2 : p = m.toPos
    · simp [h2, htoEq]
    · by_cases h1 : p = m.fromPos <;> simp [h1, h2, hne, Ne.symm hne]
  case enPassant =>
    rw [hmt] at hok
    obtain ⟨-, hto, hcap, hrne, hcne⟩ := hok
    obtain ⟨ge, hexec, hgh, hgf, hgridge⟩ :=
      executeMove_board_enPassant gs m piece hfromEq hmt
    refine c1_assemble gs m piece ge hfromEq hcol hleg hexec hgh hgf ?_
    have hne : m.fromPos ≠ m.toPos := by
      intro he
      rw [he, hto] at hfromEq
      exact Option.noConfusion hfromEq
    have hne_fc : m.fromPos ≠ (⟨m.fromPos.row, m.toPos.col⟩ : Position) := by
      intro he
      have hc := congrArg Position.col he
      exact hcne hc.symm
    have hne_tc : m.toPos ≠ (⟨m.fromPos.row, m.toPos.col⟩ : Position) := by
      intro he
      have hr := congrArg Position.row he
      exact hrne hr
    intro g hgb p
    rw [reverseMove_board, hmt, hgb]
    rcases hcv : gs.board.grid ⟨m.fromPos.row, m.toPos.col⟩ with - | cp <;> rw [hcv] at hcap
    · rw [hcap]
      simp only [hgridge, grid_move, grid_set, Board.removePiece]
      by_cases h1 : p = m.fromPos <;> by_cases h2 : p = m.toPos <;>
        by_cases h3 : p = (⟨m.fromPos.row, m.toPos.col⟩ : Position) <;>
        simp [h1, h2, h3, hne, Ne.symm hne, hne_fc, Ne.symm hne_fc, hne_tc, Ne.symm hne_tc,
          hto, hcv]
    · rw [hcap]
      simp only [hgridge, grid_move, grid_set, Board.removePiece]
      by_cases h1 : p = m.fromPos <;> by_cases h2 : p = m.toPos <;>
        by_cases h3 : p = (⟨m.fromPos.row, m.toPos.col⟩ : Position) <;>
        simp [h1, h2, h3, hne, Ne.symm hne, hne_fc, Ne.symm hne_fc, hne_tc, Ne.symm hne_tc,
          hto, hcv]
  case promotion =>
    rw [hmt] at hok
    obtain ⟨-, hp, hpp, hdisj⟩ := hok
    obtain ⟨pt, hpt⟩ := Option.isSome_iff_exists.mp hpp
    obtain ⟨ge, hexec, hgh, hgf, hgridge⟩ :=
      executeMove_board_promotion gs m piece pt hfromEq hmt hpt
    refine c1_assemble gs m piece ge hfromEq hcol hleg hexec hgh hgf ?_
    have hpiece : piece = ⟨piece.color, PieceType.pawn⟩ := by
      cases piece
      cases hp
      rfl
    have hfrom2 : gs.board.grid m.fromPos = some ⟨piece.color, PieceType.pawn⟩ :=
      hfromEq.trans (congrArg some hpiece)
    have hat : ge.board.grid m.toPos = some ⟨piece.color, pt⟩ := by
      rw [hgridge, grid_set]
      simp
    intro g hgb p
    rw [reverseMove_board, hmt, hgb, hat]
    rcases hdisj with ⟨htoN, hcapN⟩ | ⟨cp, htoS, hcc, hcapS⟩
    · rw [hcapN]
      have hne : m.fromPos ≠ m.toPos := by
        intro he
        rw [he, htoN] at hfromEq
        exact Option.noConfusion hfromEq
      simp only [hgridge, grid_move, grid_set, Board.removePiece]
      by_cases h1 : p = m.fromPos <;> by_cases h2 : p = m.toPos <;>
        simp [h1, h2, hne, Ne.symm hne, htoN, hfrom2]
    · rw [hcapS]
      have hne : m.fromPos ≠ m.toPos := by
        intro he
        rw [he, htoS] at hfromEq
        injection hfromEq with h
        exact hcc (by rw [h])
      simp only [hgridge, grid_move, grid_set, Board.removePiece]
      by_cases h1 : p = m.fromPos <;> by_cases h2 : p = m.toPos <;>
        simp [h1, h2, hne, Ne.symm hne, htoS, hfrom2]
  case castlingKingside =>
    rw [hmt] at hok
    obtain ⟨-, hcap, htoEq⟩ := hok
    have hc4 : m.fromPos.col = 4 := hcastle (Or.inl hmt)
    have hval := isMoveLegalE_castling_true hfromEq (Or.inl hmt) hleg
    obtain ⟨h5, h6⟩ := validateCastling_clear hval (by simp [hmt])
    obtain ⟨ge, hexec, hgh, hgf, hgridge⟩ :=
      executeMove_board_castlingK gs m piece hfromEq hmt
    refine c1_assemble gs m piece ge hfromEq hcol hleg hexec hgh hgf ?_
    have hto6 : m.toPos = (⟨m.fromPos.row, 6⟩ : Position) := by
      rw [htoEq, hc4]
      simp
    have e65 : (⟨m.fromPos.row, 6⟩ : Position) ≠ ⟨m.fromPos.row, 5⟩ := by
      apply pos_ne_of_col
      show (6 : Int) ≠ 5
      decide
    have e67 : (⟨m.fromPos.row, 6⟩ : Position) ≠ ⟨m.fromPos.row, 7⟩ := by
      apply pos_ne_of_col
      show (6 : Int) ≠ 7
      decide
    have e57 : (⟨m.fromPos.row, 5⟩ : Position) ≠ ⟨m.fromPos.row, 7⟩ := by
      apply pos_ne_of_col
      show (5 : Int) ≠ 7
      decide
    have ef5 : m.fromPos ≠ (⟨m.fromPos.row, 5⟩ : Position) := by
      apply pos_ne_of_col
      rw [hc4]
      show (4 : Int) ≠ 5
      decide
    have ef6 : m.fromPos ≠ (⟨m.fromPos.row, 6⟩ : Position) := by
      apply pos_ne_of_col
      rw [hc4]
      show (4 : Int) ≠ 6
      decide
    have ef7 : m.fromPos ≠ (⟨m.fromPos.row, 7⟩ : Position) := by
      apply pos_ne_of_col
      rw [hc4]
      show (4 : Int) ≠ 7
      decide
    intro g hgb p
    rw [reverseMove_board, hmt, hgb]
    rw [hto6] at hgridge ⊢
    simp only [hgridge, grid_move]
    by_cases h1 : p = m.fromPos <;> by_cases h2 : p = (⟨m.fromPos.row, 6⟩ : Position) <;>
      by_cases h3 : p = (⟨m.fromPos.row, 5⟩ : Position) <;>
      by_cases h4 : p = (⟨m.fromPos.row, 7⟩ : Position) <;>
      simp [h1, h2, h3, h4, e65, Ne.symm e65, e67, Ne.symm e67, e57, Ne.symm e57,
        ef5, Ne.symm ef5, ef6, Ne.symm ef6, ef7, Ne.symm ef7, h5, h6]
  case castlingQueenside =>
    rw [hmt] at hok
    obtain ⟨-, hcap, htoEq⟩ := hok
    have hc4 : m.fromPos.col = 4 := hcastle (Or.inr hmt)
    have hval := isMoveLegalE_castling_true hfromEq (Or.inr hmt) hleg
    obtain ⟨g1, g2, g3⟩ := validateCastling_clear_q hval hmt
    obtain ⟨ge, hexec, hgh, hgf, hgridge⟩ :=
      executeMove_board_castlingQ gs m piece hfromEq hmt
    refine c1_assemble gs m piece ge hfromEq hcol hleg hexec hgh hgf ?_
    have hto2 : m.toPos = (⟨m.fromPos.row, 2⟩ : Position) := by
      rw [htoEq, hc4]
      simp
    have e23 : (⟨m.fromPos.row, 2⟩ : Position) ≠ ⟨m.fromPos.row, 3⟩ := by
      apply pos_ne_of_col
      show (2 : Int) ≠ 3
      decide
    have e20 : (⟨m.fromPos.row, 2⟩ : Position) ≠ ⟨m.fromPos.row, 0⟩ := by
      apply pos_ne_of_col
      show (2 : Int) ≠ 0
      decide
    have e30 : (⟨m.fromPos.row, 3⟩ : Position) ≠ ⟨m.fromPos.row, 0⟩ := by
      apply pos_ne_of_col
      show (3 : Int) ≠ 0
      decide
    have ef2 : m.fromPos ≠ (⟨m.fromPos.row, 2⟩ : Position) := by
      apply pos_ne_of_col
      rw [hc4]
      show (4 : Int) ≠ 2
      decide
    have ef3 : m.fromPos ≠ (⟨m.fromPos.row, 3⟩ : Position) := by
      apply pos_ne_of_col
      rw [hc4]
      show (4 : Int) ≠ 3
      decide
    have ef0 : m.fromPos ≠ (⟨m.fromPos.row, 0⟩ : Position) := by
      apply pos_ne_of_col
      rw [hc4]
      show (4 : Int) ≠ 0
      decide
    intro g hgb p
    rw [reverseMove_board, hmt, hgb]
    rw [hto2] at hgridge ⊢
    simp only [hgridge, grid_move]
    by_cases h1 : p = m.fromPos <;> by_cases h2 : p = (⟨m.fromPos.row, 2⟩ : Position) <;>
      by_cases h3 : p = (⟨m.fromPos.row, 3⟩ : Position) <;>
      by_cases h4 : p = (⟨m.fromPos.row, 0⟩ : Position) <;>
      simp [h1, h2, h3, h4, e23, Ne.symm e23, e20, Ne.symm e20, e30, Ne.symm e30,
        ef2, Ne.symm ef2, ef3, Ne.symm ef3, ef0, Ne.symm ef0, g2, g3]

/-! Concrete fixtures used by witnesses and counterexamples. -/

/-- An empty board with full castling rights and no en-passant target, as
Board.__init__ builds it. -/
def emptyBoard : Board :=
  { grid := fun _ => none }

/-- A board populated with the given pieces via set_piece. -/
def boardOf (ps : List (Position × Piece)) : Board :=
  ps.foldl (fun b pp => b.setPiece pp.1 (some pp.2)) emptyBoard

/-- White king e1, white pawn a2, black king e8; white to move. -/
def gsSmall : GameState :=
  { board := boardOf
      [(⟨7, 4⟩, ⟨.white, .king⟩), (⟨6, 0⟩, ⟨.white, .pawn⟩), (⟨0, 4⟩, ⟨.black, .king⟩)] }

/-- The single pawn push a2-a3 on gsSmall. -/
def mSmall : Move := ⟨⟨6, 0⟩, ⟨5, 0⟩, .normal, none, none⟩

/-- White king on d1 with castling rights intact (a state no real game can
reach), rook h1, black king a8. -/
def gsBadCastle : GameState :=
  { board := boardOf
      [(⟨7, 3⟩, ⟨.white, .king⟩), (⟨7, 7⟩, ⟨.white, .rook⟩), (⟨0, 0⟩, ⟨.black, .king⟩)] }

/-- The kingside-castling candidate the generator emits for the d1 king. -/
def mBadCastle : Move := ⟨⟨7, 3⟩, ⟨7, 5⟩, .castlingKingside, none, none⟩

/-- Witness for claim C1 at a concrete input: the pawn push a2-a3 is in the
legal move list, make_move succeeds and undo_move reports success. -/
theorem claim_c1_witness :
    mSmall ∈ stateAllLegalMoves gsSmall ∧
      ((mSmall.moveType = MoveType.castlingKingside ∨
          mSmall.moveType = MoveType.castlingQueenside) → mSmall.fromPos.col = 4) ∧
      ∃ gs1, makeMove gsSmall mSmall = some (true, gs1) ∧ (undoMove gs1).1 = true := by
  refine ⟨by decide, by decide, ?_⟩
  obtain ⟨gs1, h1, h2, -⟩ :=
    claim_c1_make_undo_roundtrip gsSmall mSmall (by decide) (by decide)
  exact ⟨gs1, h1, h2⟩

/-- Counterexample to claim C1 as frozen: from a state with the white king
on d1 and the kingside rights flag still set, the castling move emitted by
the generator is in the legal move list, make_move succeeds, and undo_move
does not restore the board: the rook ends on d1 and h1 stays empty. -/
theorem claim_c1_counterexample :
    mBadCastle ∈ stateAllLegalMoves gsBadCastle ∧
      gsBadCastle.board.grid ⟨7, 3⟩ = some ⟨.white, .king⟩ ∧
      gsBadCastle.board.grid ⟨7, 7⟩ = some ⟨.white, .rook⟩ ∧
      (makeMove gsBadCastle mBadCastle).map
          (fun r => (r.1, (undoMove r.2).1,
            (undoMove r.2).2.board.grid ⟨7, 3⟩, (undoMove r.2).2.board.grid ⟨7, 7⟩)) =
        some (true, true, some ⟨.white, .rook⟩, none) := by
  refine ⟨by decide, by decide, by decide, by decide⟩

/-- C2.  make_move returns false and leaves the state untouched whenever the
source square is empty, the piece is not the mover's, or the move fails
is_move_legal; no component is mutated on rejection. -/
theorem claim_c2_reject_no_mutation (gs : GameState) (m : Move)
    (h : gs.board.grid m.fromPos = none ∨
      (∃ piece, gs.board.grid m.fromPos = some piece ∧ piece.color ≠ gs.currentTurn) ∨
      isMoveLegalE gs.board m = some false) :
    makeMove gs m = some (false, gs) := by
  unfold makeMove
  split
  next => rfl
  next piece hg =>
    split
    next => rfl
    next hc =>
      split
      next hlegn =>
        exfalso
        rcases h with h | ⟨p2, hp2, hcol2⟩ | h
        · rw [hg] at h
          exact Option.noConfusion h
        · rw [hg] at hp2
          injection hp2 with he
          subst he
          exact absurd hcol2 hc
        · rw [hlegn] at h
          exact Option.noConfusion h
      next => rfl
      next hlegt =>
        exfalso
        rcases h with h | ⟨p2, hp2, hcol2⟩ | h
        · rw [hg] at h
          exact Option.noConfusion h
        · rw [hg] at hp2
          injection hp2 with he
          subst he
          exact absurd hcol2 hc
        · rw [hlegt] at h
          injection h with hb
          exact Bool.noConfusion hb

/-- A move from an empty square on gsSmall. -/
def mEmptyFrom : Move := ⟨⟨4, 4⟩, ⟨3, 4⟩, .normal, none, none⟩

/-- Witness for claim C2 at a concrete input. -/
theorem claim_c2_witness :
    gsSmall.board.grid mEmptyFrom.fromPos = none ∧
      makeMove gsSmall mEmptyFrom = some (false, gsSmall) :=
  ⟨by decide, claim_c2_reject_no_mutation gsSmall mEmptyFrom (Or.inl (by decide))⟩

/-- Every move of the state's legal move list goes through make_move with a
true result. -/
theorem makeMove_some_of_legal {gs : GameState} {m : Move}
    (hm : m ∈ stateAllLegalMoves gs) :
    ∃ gs1, makeMove gs m = some (true, gs1) := by
  obtain ⟨piece, hfromEq, hcol, hok, hleg⟩ := legal_decomp hm
  unfold MoveOK at hok
  have hexec : ∃ ge, executeMove gs m = some ge := by
    rcases hmt : m.moveType
    case normal =>
      obtain ⟨ge, hexec, -⟩ := executeMove_board_default gs m piece hfromEq (Or.inl hmt)
      exact ⟨ge, hexec⟩
    case capture =>
      obtain ⟨ge, hexec, -⟩ :=
        executeMove_board_default gs m piece hfromEq (Or.inr (Or.inl hmt))
      exact ⟨ge, hexec⟩
    case pawnDouble =>
      obtain ⟨ge, hexec, -⟩ :=
        executeMove_board_default gs m piece hfromEq (Or.inr (Or.inr hmt))
      exact ⟨ge, hexec⟩
    case enPassant =>
      obtain ⟨ge, hexec, -⟩ := executeMove_board_enPassant gs m piece hfromEq hmt
      exact ⟨ge, hexec⟩
    case promotion =>
      rw [hmt] at hok
      obtain ⟨-, -, hpp, -⟩ := hok
      obtain ⟨pt, hpt⟩ := Option.isSome_iff_exists.mp hpp
      obtain ⟨ge, hexec, -⟩ := executeMove_board_promotion gs m piece pt hfromEq hmt hpt
      exact ⟨ge, hexec⟩
    case castlingKingside =>
      obtain ⟨ge, hexec, -⟩ := executeMove_board_castlingK gs m piece hfromEq hmt
      exact ⟨ge, hexec⟩
    case castlingQueenside =>
      obtain ⟨ge, hexec, -⟩ := executeMove_board_castlingQ gs m piece hfromEq hmt
      exact ⟨ge, hexec⟩
  obtain ⟨ge, hexec⟩ := hexec
  obtain ⟨st, hmk, -⟩ := makeMove_success_fields gs m piece ge hfromEq hcol hleg hexec
  exact ⟨st, hmk⟩

/-- Minimax at depth 0 returns no move and the static evaluation. -/
theorem minimax_zero (ai : Color) (gs : GameState) (alpha beta : Score) (mx : Bool) :
    minimax ai gs 0 alpha beta mx = some (none, Score.num (evaluatePosition ai gs)) := by
  rw [minimax]

/-- The maximizing loop with depth-0 children: it always succeeds, and it
ends with a chosen move as soon as it starts with one, or starts from the
-inf accumulator on a nonempty list (a finite child score then strictly
beats -inf). -/
theorem maximizingLoop_zero_result (ai : Color) (gs : GameState) :
    ∀ (ms : List Move) (alpha beta : Score) (best : Option Move) (acc : Score),
      (∀ m' ∈ ms, m' ∈ stateAllLegalMoves gs) →
      (best.isSome = true ∨ (acc = Score.negInf ∧ ms ≠ [])) →
      (maximizingLoop ai gs 0 ms alpha beta best acc).map (fun r => r.1.isSome) =
        some true := by
  intro ms
  induction ms with
  | nil =>
    intro alpha beta best acc hms hbase
    rcases hbase with hbase | ⟨-, hbase⟩
    · rw [maximizingLoop]
      simp [hbase]
    · exact absurd rfl hbase
  | cons m rest ih =>
    intro alpha beta best acc hms hbase
    obtain ⟨s1, hs1⟩ := makeMove_some_of_legal
      (show m ∈ stateAllLegalMoves gs.copy from hms m (List.mem_cons_self m rest))
    rw [maximizingLoop, hs1]
    simp only [minimax_zero]
    have hb1 : (if Score.blt acc (Score.num (evaluatePosition ai s1)) then some m
        else best).isSome = true := by
      rcases hbase with hbase | ⟨hacc, -⟩
      · split
        · rfl
        · exact hbase
      · rw [hacc]
        rfl
    split
    · simp [hb1]
    · exact ih _ _ _ _ (fun m' hm' => hms m' (List.mem_cons_of_mem m hm')) (Or.inl hb1)

/-- C3, amended.  Minimax at depth 0 returns no move together with the
static evaluation; at depth 1, from any position that is not game over and
has a legal move, the top-level call (maximizing, with the infinite window)
returns a move. -/
theorem claim_c3_minimax_depth01 (ai : Color) (gs : GameState) :
    (∀ alpha beta mx, minimax ai gs 0 alpha beta mx =
        some (none, Score.num (evaluatePosition ai gs))) ∧
      (isGameOver gs = false → stateAllLegalMoves gs ≠ [] →
        (minimax ai gs 1 Score.negInf Score.posInf true).map (fun r => r.1.isSome) =
          some true) := by
  constructor
  · intro alpha beta mx
    exact minimax_zero ai gs alpha beta mx
  · intro hgo hne
    rcases hms : stateAllLegalMoves gs with - | ⟨m, rest⟩
    · exact absurd hms hne
    have hred : minimax ai gs 1 Score.negInf Score.posInf true =
        maximizingLoop ai gs 0 (m :: rest) Score.negInf Score.posInf none Score.negInf := by
      rw [minimax]
      simp [hgo, hms]
    rw [hred]
    exact maximizingLoop_zero_result ai gs (m :: rest) _ _ none Score.negInf
      (fun m' hm' => hms ▸ hm') (Or.inr ⟨rfl, by simp⟩)

/-- A rook-and-kings state whose half-move clock has reached 100: its
derived status is DRAW (legal moves exist), so is_game_over is true. -/
def gsDraw : GameState :=
  { board := boardOf
      [(⟨7, 0⟩, ⟨.white, .rook⟩), (⟨7, 4⟩, ⟨.white, .king⟩), (⟨0, 4⟩, ⟨.black, .king⟩)],
    halfMoveClock := 100,
    gameStatus := .draw }

/-- Minimax exits early with no move on any game-over state, at any
positive depth. -/
theorem minimax_gameOver (ai : Color) (gs : GameState) (d : Nat) (alpha beta : Score)
    (mx : Bool) (h : isGameOver gs = true) :
    minimax ai gs (d + 1) alpha beta mx =
      some (none, Score.num (evaluatePosition ai gs)) := by
  rw [minimax]
  simp [h]

/-- Counterexample to claim C3 as frozen: gsDraw has legal moves for the
side to move, yet minimax at depth 1 returns no move (its game-over early
exit fires on the DRAW status). -/
theorem claim_c3_counterexample :
    stateAllLegalMoves gsDraw ≠ [] ∧
      (minimax .white gsDraw 1 .negInf .posInf true).map (fun r => r.1) = some none := by
  refine ⟨by decide, ?_⟩
  rw [minimax_gameOver .white gsDraw 0 .negInf .posInf true (by decide)]
  rfl

/-- Witness for the amended claim C3 at a concrete input. -/
theorem claim_c3_witness :
    isGameOver gsSmall = false ∧ stateAllLegalMoves gsSmall ≠ [] ∧
      (minimax .white gsSmall 1 .negInf .posInf true).map (fun r => r.1.isSome) =
        some true :=
  ⟨by decide, by decide,
    (claim_c3_minimax_depth01 .white gsSmall).2 (by decide) (by decide)⟩

/-- The validator verdict as one boolean conjunction of its five guards. -/
theorem validateCastling_eq (b : Board) (m : Move) (c : Color) :
    validateCastling b m c =
      (!isKingInCheck b c &&
        b.castlingRights.canCastle c (m.moveType == MoveType.castlingKingside) &&
        isCastlingPathClear b m.fromPos.row
          (getCastlingParams (m.moveType == MoveType.castlingKingside)) &&
        isRookValid b m.fromPos.row
          (getCastlingParams (m.moveType == MoveType.castlingKingside)).rookCol c &&
        isCastlingPathSafe b m.fromPos.row
          (getCastlingParams (m.moveType == MoveType.castlingKingside)).kingPath c) := by
  unfold validateCastling
  cases h1 : isKingInCheck b c <;>
    cases h2 : b.castlingRights.canCastle c (m.moveType == MoveType.castlingKingside) <;>
    cases h3 : isCastlingPathClear b m.fromPos.row
      (getCastlingParams (m.moveType == MoveType.castlingKingside)) <;>
    cases h4 : isRookValid b m.fromPos.row
      (getCastlingParams (m.moveType == MoveType.castlingKingside)).rookCol c <;>
    simp [h1, h2, h3, h4]

theorem isRookValid_iff (b : Board) (row col : Int) (c : Color) :
    isRookValid b row col c = true ↔ b.grid ⟨row, col⟩ = some ⟨c, PieceType.rook⟩ := by
  unfold isRookValid
  split
  next rk hg =>
    obtain ⟨rc, rp⟩ := rk
    simp [hg, Piece.mk.injEq, and_comm]
  next hg => simp [hg]

/-- The back rank of a color in the spec's orientation (rank 1 = row 7 for
white, rank 8 = row 0 for black). -/
def homeRow (c : Color) : Int :=
  if c = Color.white then 7 else 0

/-- The rook's home corner for a castling side, per the spec's wording. -/
def rookHome (c : Color) (kingside : Bool) : Position :=
  ⟨homeRow c, if kingside then 7 else 0⟩

/-- The squares strictly between the king (column 4) and the rook, per the
spec's wording. -/
def betweenKingAndRook (c : Color) (kingside : Bool) : List Position :=
  if kingside then [⟨homeRow c, 5⟩, ⟨homeRow c, 6⟩]
  else [⟨homeRow c, 1⟩, ⟨homeRow c, 2⟩, ⟨homeRow c, 3⟩]

/-- The squares the king passes through or lands on (its start square being
covered by the separate not-in-check condition), per the spec's wording. -/
def kingTransitSquares (c : Color) (kingside : Bool) : List Position :=
  if kingside then [⟨homeRow c, 5⟩, ⟨homeRow c, 6⟩]
  else [⟨homeRow c, 3⟩, ⟨homeRow c, 2⟩]

/-- The spec's castling-legality conditions, stated from its words: mover
not in check, rights flag set, squares between king and rook empty, own
rook on its home square, no transit or landing square attacked. -/
def specCastlingLegal (b : Board) (c : Color) (kingside : Bool) : Prop :=
  isKingInCheck b c = false ∧
    b.castlingRights.canCastle c kingside = true ∧
    (∀ q ∈ betweenKingAndRook c kingside, b.grid q = none) ∧
    b.grid (rookHome c kingside) = some ⟨c, PieceType.rook⟩ ∧
    (∀ q ∈ kingTransitSquares c kingside, b.isPositionAttacked q c.opposite = false)

instance specCastlingLegalDecidable (b : Board) (c : Color) (kingside : Bool) :
    Decidable (specCastlingLegal b c kingside) := by
  unfold specCastlingLegal
  infer_instance

/-- C4.  For a castling move of the king standing on its home square,
is_move_legal is true exactly when the spec's five conditions all hold. -/
theorem claim_c4_castling_iff (b : Board) (c : Color) (kingside : Bool) (m : Move)
    (hk : b.grid m.fromPos = some ⟨c, .king⟩)
    (hfrom : m.fromPos = ⟨homeRow c, 4⟩)
    (htype : m.moveType =
      (if kingside then MoveType.castlingKingside else MoveType.castlingQueenside)) :
    isMoveLegalE b m = some true ↔ specCastlingLegal b c kingside := by
  rcases kingside
  case false =>
    simp only [if_neg, Bool.false_eq_true, if_false] at htype
    unfold isMoveLegalE
    simp only [hk]
    rw [if_pos (Or.inr htype)]
    have hks : (m.moveType == MoveType.castlingKingside) = false := by
      rw [htype]; rfl
    rw [Option.some_inj, validateCastling_eq, hks, hfrom]
    simp [specCastlingLegal, betweenKingAndRook, kingTransitSquares, rookHome,
      isCastlingPathClear, isCastlingPathSafe, isRookValid_iff, getCastlingParams,
      Bool.and_eq_true, and_assoc]
  case true =>
    simp only [if_pos] at htype
    unfold isMoveLegalE
    simp only [hk]
    rw [if_pos (Or.inl htype)]
    have hks : (m.moveType == MoveType.castlingKingside) = true := by
      rw [htype]; rfl
    rw [Option.some_inj, validateCastling_eq, hks, hfrom]
    simp [specCastlingLegal, betweenKingAndRook, kingTransitSquares, rookHome,
      isCastlingPathClear, isCastlingPathSafe, isRookValid_iff, getCastlingParams,
      Bool.and_eq_true, and_assoc]

/-- White king e1, white rook h1, black king a8. -/
def bCastleOK : Board :=
  boardOf [(⟨7, 4⟩, ⟨.white, .king⟩), (⟨7, 7⟩, ⟨.white, .rook⟩), (⟨0, 0⟩, ⟨.black, .king⟩)]

/-- The kingside castling move e1-g1. -/
def mCastleOK : Move := ⟨⟨7, 4⟩, ⟨7, 6⟩, .castlingKingside, none, none⟩

/-- Witness for claim C4 at a concrete input: on bCastleOK the spec's five
conditions hold and is_move_legal agrees. -/
theorem claim_c4_witness :
    bCastleOK.grid mCastleOK.fromPos = some ⟨.white, .king⟩ ∧
      mCastleOK.fromPos = ⟨homeRow .white, 4⟩ ∧
      specCastlingLegal bCastleOK .white true ∧
      isMoveLegalE bCastleOK mCastleOK = some true :=
  ⟨by decide, by decide, by decide,
    (claim_c4_castling_iff bCastleOK .white true mCastleOK (by decide) (by decide)
      (by decide)).mpr (by decide)⟩

/-- Every successful make_move result is an _update_game_status output. -/
theorem makeMove_true_shape {s : GameState} {m : Move} {s' : GameState}
    (h : makeMove s m = some (true, s')) : ∃ g, s' = updateGameStatus g := by
  unfold makeMove at h
  split at h
  · injection h with h2
    injection h2 with hb
    exact Bool.noConfusion hb
  · split at h
    · injection h with h2
      injection h2 with hb
      exact Bool.noConfusion hb
    · split at h
      · exact Option.noConfusion h
      · injection h with h2
        injection h2 with hb
        exact Bool.noConfusion hb
      · rcases hx : executeMove s m with - | ge <;> rw [hx] at h
        · exact Option.noConfusion h
        · injection h with h2
          have hsnd := congrArg Prod.snd h2
          exact ⟨_, hsnd.symm⟩

/-- _update_game_status yields DRAW when the clock is at 100 or more and the
earlier branches (no legal moves, in check) do not fire. -/
theorem updateGameStatus_draw (g : GameState)
    (hmoves : hasLegalMoves g.board g.currentTurn = true)
    (hcheck : isKingInCheck g.board g.currentTurn = false)
    (hclock : 100 ≤ g.halfMoveClock) :
    (updateGameStatus g).gameStatus = GameStatus.draw := by
  unfold updateGameStatus
  simp [hmoves, hcheck, hclock]

/-- C5, amended.  A state produced by make_move whose half-move clock has
reached 100 has status DRAW provided the side to move still has a legal
move and is not in check; the code's status derivation tests the
checkmate / stalemate / check branches first, so reaching 100 does not
force DRAW when the moving side just gave check. -/
theorem claim_c5_clock100_draw (s : GameState) (m : Move) (s' : GameState)
    (hmk : makeMove s m = some (true, s'))
    (hclock : 100 ≤ s'.halfMoveClock)
    (hmoves : hasLegalMoves s'.board s'.currentTurn = true)
    (hcheck : isKingInCheck s'.board s'.currentTurn = false) :
    s'.gameStatus = GameStatus.draw := by
  obtain ⟨g, rfl⟩ := makeMove_true_shape hmk
  rw [updateGameStatus_board, updateGameStatus_currentTurn] at hmoves hcheck
  rw [updateGameStatus_halfMoveClock] at hclock
  exact updateGameStatus_draw g hmoves hcheck hclock

/-- Rook a1, white king e1, black king e8, clock at 99, white to move. -/
def gsC5 : GameState :=
  { board := boardOf
      [(⟨7, 0⟩, ⟨.white, .rook⟩), (⟨7, 4⟩, ⟨.white, .king⟩), (⟨0, 4⟩, ⟨.black, .king⟩)],
    halfMoveClock := 99 }

/-- The checking rook lift a1-a8. -/
def mC5check : Move := ⟨⟨7, 0⟩, ⟨0, 0⟩, .normal, none, none⟩

/-- The quiet rook lift a1-a7. -/
def mC5quiet : Move := ⟨⟨7, 0⟩, ⟨1, 0⟩, .normal, none, none⟩

/-- The state after the quiet rook lift. -/
def gsC5after : GameState := ((makeMove gsC5 mC5quiet).getD (false, gsC5)).2

/-- Counterexample to claim C5 as frozen: the checking rook lift brings the
half-move clock to 100, yet the derived status is CHECK, not DRAW. -/
theorem claim_c5_counterexample :
    (makeMove gsC5 mC5check).map (fun r => (r.1, r.2.halfMoveClock, r.2.gameStatus)) =
      some (true, 100, GameStatus.check) := by
  decide

/-- Witness for the amended claim C5 at a concrete input. -/
theorem claim_c5_witness :
    100 ≤ gsC5after.halfMoveClock ∧
      hasLegalMoves gsC5after.board gsC5after.currentTurn = true ∧
      isKingInCheck gsC5after.board gsC5after.currentTurn = false ∧
      gsC5after.gameStatus = GameStatus.draw := by
  have h : makeMove gsC5 mC5quiet = some (true, gsC5after) := rfl
  exact ⟨by decide, by decide, by decide,
    claim_c5_clock100_draw gsC5 mC5quiet gsC5after h (by decide) (by decide) (by decide)⟩

/-- Folding the signed per-piece accumulation equals the difference of the
per-side sums. -/
theorem foldl_signed_sum {α : Type} (t : α → Int) (own : α → Prop) [DecidablePred own]
    (L : List α) (init : Int) :
    L.foldl (fun score a => if own a then score + t a else score - t a) init =
      init + ((L.filter fun a => decide (own a)).map t).sum -
        ((L.filter fun a => !decide (own a)).map t).sum := by
  induction L generalizing init with
  | nil => simp
  | cons a L ih =>
    by_cases h : own a <;> simp [h, ih] <;> ring

/-- Per-piece score of the spec's static evaluation: material value plus
piece-square-table bonus. -/
def specPieceScore (pp : Position × Piece) (isEndgame : Bool) : Int :=
  pieceValue pp.2.pieceType + getPositionValue pp.2.pieceType pp.1 pp.2.color isEndgame

/-- The back-rank penalty the spec asserts: -50 for a knight or bishop still
sitting on its own back rank. -/
def backRankPenalty (pt : PieceType) (pos : Position) (c : Color) : Int :=
  if (pt = PieceType.knight ∨ pt = PieceType.bishop) ∧ pos.row = homeRow c then -50 else 0

/-- The spec's evaluation as claimed by C6: material plus table bonus plus
the undeveloped-minor penalty, summed own-minus-opponent. -/
def specEvalWithPenalty (ai : Color) (gs : GameState) : Int :=
  let pieces := gs.board.getAllPieces none
  let isEndgame := pieces.length ≤ 10
  ((pieces.filter fun pp => pp.2.color == ai).map
      (fun pp => specPieceScore pp isEndgame +
        backRankPenalty pp.2.pieceType pp.1 pp.2.color)).sum -
    ((pieces.filter fun pp => pp.2.color != ai).map
      (fun pp => specPieceScore pp isEndgame +
        backRankPenalty pp.2.pieceType pp.1 pp.2.color)).sum

/-- The spec's evaluation without the penalty clause: material plus table
bonus, summed own-minus-opponent. -/
def specEvalNoPenalty (ai : Color) (gs : GameState) : Int :=
  let pieces := gs.board.getAllPieces none
  let isEndgame := pieces.length ≤ 10
  ((pieces.filter fun pp => pp.2.color == ai).map
      (fun pp => specPieceScore pp isEndgame)).sum -
    ((pieces.filter fun pp => pp.2.color != ai).map
      (fun pp => specPieceScore pp isEndgame)).sum

/-- C6, amended.  The static evaluation is exactly material value plus
piece-square bonus, own total minus opponent total: no back-rank penalty is
applied anywhere. -/
theorem claim_c6_no_minor_penalty (ai : Color) (gs : GameState) :
    evaluatePosition ai gs = specEvalNoPenalty ai gs := by
  unfold evaluatePosition specEvalNoPenalty specPieceScore
  rw [foldl_signed_sum
    (fun pp : Position × Piece => pieceValue pp.2.pieceType +
      getPositionValue pp.2.pieceType pp.1 pp.2.color
        ((gs.board.getAllPieces none).length ≤ 10))
    (fun pp : Position × Piece => pp.2.color = ai)
    (gs.board.getAllPieces none) 0]
  simp
  rfl

/-- White knight b1, white king e1, black king e8. -/
def gsC6 : GameState :=
  { board := boardOf
      [(⟨7, 1⟩, ⟨.white, .knight⟩), (⟨7, 4⟩, ⟨.white, .king⟩), (⟨0, 4⟩, ⟨.black, .king⟩)] }

/-- Counterexample to claim C6 as frozen: with an undeveloped knight on b1
the code's evaluation differs from the penalty-carrying evaluation the spec
describes (280 versus 230): no -50 penalty is applied. -/
theorem claim_c6_counterexample :
    evaluatePosition .white gsC6 = 280 ∧ specEvalWithPenalty .white gsC6 = 230 ∧
      evaluatePosition .white gsC6 ≠ specEvalWithPenalty .white gsC6 := by
  refine ⟨by decide, by decide, by decide⟩

/-- Boolean equality on positions computes field-wise. -/
theorem pos_beq_eq (p q : Position) :
    (p == q) = (decide (p.row = q.row) && decide (p.col = q.col)) := by
  obtain ⟨a, b⟩ := p
  obtain ⟨c, d⟩ := q
  by_cases h1 : a = c <;> by_cases h2 : b = d <;> simp [h1, h2]

/-- The spec's final rank: row 0 for white, row 7 for black. -/
def finalRank (c : Color) : Int :=
  if c = Color.white then 0 else 7

/-- The spec's pawn marching direction: -1 for white, 1 for black. -/
def pawnDir (c : Color) : Int :=
  if c = Color.white then -1 else 1

theorem pawnDir_white : pawnDir Color.white = -1 := rfl

theorem pawnDir_black : pawnDir Color.black = 1 := rfl

theorem finalRank_white : finalRank Color.white = 0 := rfl

theorem finalRank_black : finalRank Color.black = 7 := rfl

theorem black_ne_white : (Color.black = Color.white) = False :=
  eq_false (by decide)

/-- Every pawn-generator move landing on the final rank is a promotion,
provided the en-passant target is not itself on the final rank. -/
theorem pawnMoves_final_rank_promotion {b : Board} {piece : Piece} {pos : Position}
    {m : Move}
    (hEP : ∀ t : Position, b.enPassantTarget = some t → t.row ≠ finalRank piece.color)
    (h : m ∈ pawnMoves piece pos b)
    (hrow : m.toPos.row = finalRank piece.color) :
    m.moveType = MoveType.promotion := by
  have hcl : piece.color = Color.white ∨ piece.color = Color.black := by
    cases piece.color <;> simp
  simp only [pawnMoves] at h
  set d := (if piece.color = Color.white then (-1 : Int) else 1) with hd
  set s := (if piece.color = Color.white then (6 : Int) else 1) with hs
  have hcor : d = -1 ∧ s = 6 ∧ finalRank piece.color = 0 ∨
      d = 1 ∧ s = 1 ∧ finalRank piece.color = 7 := by
    rcases hcl with hc | hc <;> rw [hd, hs, hc] <;> simp [finalRank, hc]
  rcases List.mem_append.mp h with h | h
  · split at h
    next hbnd =>
      split at h
      next hg =>
        rcases List.mem_append.mp h with h | h
        · split at h
          next hpr =>
            rcases List.mem_map.mp h with ⟨pp, -, rfl⟩
            rfl
          next hpr =>
            rcases List.mem_singleton.mp h with rfl
            exfalso
            have h2 : pos.row + d = finalRank piece.color := hrow
            rcases hcor with ⟨-, -, hf⟩ | ⟨-, -, hf⟩ <;> omega
        · split at h
          next hsr =>
            split at h
            next hg2 =>
              rcases List.mem_singleton.mp h with rfl
              exfalso
              have h2 : pos.row + 2 * d = finalRank piece.color := hrow
              rcases hcor with ⟨hd1, hs1, hf⟩ | ⟨hd1, hs1, hf⟩ <;> omega
            next => simp at h
          next => simp at h
      next => simp at h
    next => simp at h
  · rw [List.mem_flatMap] at h
    obtain ⟨colDelta, hcd, h⟩ := h
    split at h
    next hbnd =>
      split at h
      next tp hg =>
        split at h
        next hne =>
          split at h
          next hpr =>
            rcases List.mem_map.mp h with ⟨pp, -, rfl⟩
            rfl
          next hpr =>
            rcases List.mem_singleton.mp h with rfl
            exfalso
            have h2 : pos.row + d = finalRank piece.color := hrow
            rcases hcor with ⟨-, -, hf⟩ | ⟨-, -, hf⟩ <;> omega
        next => simp at h
      next hg =>
        split at h
        next hept =>
          rcases List.mem_singleton.mp h with rfl
          exact absurd hrow (hEP _ hept)
        next => simp at h
    next => simp at h

/-- A pawn one step from the final rank with a free square ahead generates
exactly the four promotion pushes onto that square. -/
theorem pawnMoves_push_promotions (c : Color) (pos : Position) (b : Board)
    (hr : pos.row + pawnDir c = finalRank c)
    (hempty : b.grid ⟨pos.row + pawnDir c, pos.col⟩ = none) :
    (pawnMoves ⟨c, PieceType.pawn⟩ pos b).filter
        (fun m => m.toPos == (⟨finalRank c, pos.col⟩ : Position)) =
      promoOptions.map fun pp =>
        ⟨pos, ⟨finalRank c, pos.col⟩, MoveType.promotion, some pp, none⟩ := by
  obtain ⟨prow, pcol⟩ := pos
  rcases c
  · simp only [pawnDir_white, finalRank_white] at hr hempty ⊢
    have h1 : prow = 1 := by omega
    subst h1
    norm_num at hempty ⊢
    simp only [pawnMoves]
    norm_num
    rw [hempty]
    rcases hga : b.grid ⟨0, pcol + -1⟩ with - | tpa <;>
      rcases hgb : b.grid ⟨0, pcol + 1⟩ with - | tpb <;>
        simp only [hga, hgb] <;>
          split_ifs <;>
            simp [promoOptions, List.filter, pos_beq_eq]
    all_goals omega
  · simp only [pawnDir_black, finalRank_black] at hr hempty ⊢
    have h1 : prow = 6 := by omega
    subst h1
    norm_num at hempty ⊢
    simp only [pawnMoves]
    norm_num [black_ne_white]
    rw [hempty]
    rcases hga : b.grid ⟨7, pcol + -1⟩ with - | tpa <;>
      rcases hgb : b.grid ⟨7, pcol + 1⟩ with - | tpb <;>
        simp only [hga, hgb] <;>
          split_ifs <;>
            simp [promoOptions, List.filter, pos_beq_eq]
    all_goals omega

/-- A pawn one step from the final rank with an enemy piece on a diagonal
square generates exactly the four capture-promotions onto that square (none
when the square is off the board). -/
theorem pawnMoves_capture_promotions (c : Color) (pos : Position) (b : Board)
    (dc : Int) (hdc : dc = -1 ∨ dc = 1) (tp : Piece)
    (hr : pos.row + pawnDir c = finalRank c)
    (hg : b.grid ⟨pos.row + pawnDir c, pos.col + dc⟩ = some tp)
    (hne : tp.color ≠ c) :
    (pawnMoves ⟨c, PieceType.pawn⟩ pos b).filter
        (fun m => m.toPos == (⟨finalRank c, pos.col + dc⟩ : Position)) =
      if 0 ≤ pos.col + dc ∧ pos.col + dc < 8 then
        promoOptions.map fun pp =>
          ⟨pos, ⟨finalRank c, pos.col + dc⟩, MoveType.promotion, some pp, some tp⟩
      else [] := by
  obtain ⟨prow, pcol⟩ := pos
  rcases hdc with rfl | rfl <;> rcases c
  · simp only [pawnDir_white, finalRank_white] at hr hg ⊢
    have h1 : prow = 1 := by omega
    subst h1
    norm_num at hg ⊢
    simp only [pawnMoves]
    norm_num
    rw [hg]
    rcases hgf : b.grid ⟨0, pcol⟩ with - | tpf <;>
      rcases hgb : b.grid ⟨0, pcol + 1⟩ with - | tpb <;>
        simp only [hgf, hgb] <;>
          split_ifs <;>
            first
              | contradiction
              | simp [promoOptions, List.filter, pos_beq_eq]
    all_goals omega
  · simp only [pawnDir_black, finalRank_black] at hr hg ⊢
    have h1 : prow = 6 := by omega
    subst h1
    norm_num at hg ⊢
    simp only [pawnMoves]
    norm_num [black_ne_white]
    rw [hg]
    rcases hgf : b.grid ⟨7, pcol⟩ with - | tpf <;>
      rcases hgb : b.grid ⟨7, pcol + 1⟩ with - | tpb <;>
        simp only [hgf, hgb] <;>
          split_ifs <;>
            first
              | contradiction
              | simp [promoOptions, List.filter, pos_beq_eq]
    all_goals omega
  · simp only [pawnDir_white, finalRank_white] at hr hg ⊢
    have h1 : prow = 1 := by omega
    subst h1
    norm_num at hg ⊢
    simp only [pawnMoves]
    norm_num
    rw [hg]
    rcases hgf : b.grid ⟨0, pcol⟩ with - | tpf <;>
      rcases hga : b.grid ⟨0, pcol + -1⟩ with - | tpa <;>
        simp only [hgf, hga] <;>
          split_ifs <;>
            first
              | contradiction
              | simp [promoOptions, List.filter, pos_beq_eq]
    all_goals omega
  · simp only [pawnDir_black, finalRank_black] at hr hg ⊢
    have h1 : prow = 6 := by omega
    subst h1
    norm_num at hg ⊢
    simp only [pawnMoves]
    norm_num [black_ne_white]
    rw [hg]
    rcases hgf : b.grid ⟨7, pcol⟩ with - | tpf <;>
      rcases hga : b.grid ⟨7, pcol + -1⟩ with - | tpa <;>
        simp only [hgf, hga] <;>
          split_ifs <;>
            first
              | contradiction
              | simp [promoOptions, List.filter, pos_beq_eq]
    all_goals omega

/-- C7, amended.  When the en-passant target does not sit on the final rank
(as in every position arising from play, since an en-passant target is on row
2 or 5), the pawn generator emits onto the final rank only PROMOTION moves;
onto a free push square on the final rank it emits exactly the four promotion
pushes, and onto an on-board diagonal square on the final rank holding an
enemy piece exactly the four capture-promotions, one per option in QUEEN,
ROOK, KNIGHT, BISHOP.  Without the proviso the claim fails: an en-passant
target placed on the final rank makes the generator emit an EN_PASSANT move
onto that rank. -/
theorem claim_c7_promotion_moves (c : Color) (pos : Position) (b : Board)
    (hEP : ∀ t : Position, b.enPassantTarget = some t → t.row ≠ finalRank c) :
    (∀ m ∈ getPossibleMoves ⟨c, PieceType.pawn⟩ pos b,
        m.toPos.row = finalRank c → m.moveType = MoveType.promotion) ∧
      (pos.row + pawnDir c = finalRank c →
        b.grid ⟨pos.row + pawnDir c, pos.col⟩ = none →
        (getPossibleMoves ⟨c, PieceType.pawn⟩ pos b).filter
            (fun m => m.toPos == (⟨finalRank c, pos.col⟩ : Position)) =
          promoOptions.map fun pp =>
            ⟨pos, ⟨finalRank c, pos.col⟩, MoveType.promotion, some pp, none⟩) ∧
      (∀ dc : Int, (dc = -1 ∨ dc = 1) → ∀ tp : Piece,
        pos.row + pawnDir c = finalRank c →
        b.grid ⟨pos.row + pawnDir c, pos.col + dc⟩ = some tp →
        tp.color ≠ c →
        (getPossibleMoves ⟨c, PieceType.pawn⟩ pos b).filter
            (fun m => m.toPos == (⟨finalRank c, pos.col + dc⟩ : Position)) =
          if 0 ≤ pos.col + dc ∧ pos.col + dc < 8 then
            promoOptions.map fun pp =>
              ⟨pos, ⟨finalRank c, pos.col + dc⟩, MoveType.promotion, some pp, some tp⟩
          else []) := by
  refine ⟨?_, ?_, ?_⟩
  · intro m hm hrow
    exact @pawnMoves_final_rank_promotion b ⟨c, PieceType.pawn⟩ pos m hEP hm hrow
  · intro hr hempty
    exact pawnMoves_push_promotions c pos b hr hempty
  · intro dc hdc tp hr hg hne
    exact pawnMoves_capture_promotions c pos b dc hdc tp hr hg hne

/-- Counterexample to claim C7 as frozen: with a white pawn on a2-square
row 1 and an (unreachable but representable) en-passant target on the final
rank, the generator emits a non-promotion EN_PASSANT move onto row 0. -/
theorem claim_c7_counterexample :
    ∃ m ∈ getPossibleMoves ⟨Color.white, PieceType.pawn⟩ ⟨1, 0⟩
        { boardOf [(⟨1, 0⟩, ⟨Color.white, PieceType.pawn⟩)] with
            enPassantTarget := some ⟨0, 1⟩ },
      m.toPos.row = finalRank Color.white ∧ m.moveType ≠ MoveType.promotion := by
  refine ⟨⟨⟨1, 0⟩, ⟨0, 1⟩, MoveType.enPassant, none, none⟩, by decide, rfl, by decide⟩

/-- Witness for C7: a white pawn on row 1 column 4 with a black knight on
row 0 column 3, on a board with no en-passant target. -/
theorem claim_c7_witness :
    (∀ m ∈ getPossibleMoves ⟨Color.white, PieceType.pawn⟩ ⟨1, 4⟩
        (boardOf [(⟨1, 4⟩, ⟨Color.white, PieceType.pawn⟩),
          (⟨0, 3⟩, ⟨Color.black, PieceType.knight⟩)]),
        m.toPos.row = finalRank Color.white → m.moveType = MoveType.promotion) ∧
      ((1 : Int) + pawnDir Color.white = finalRank Color.white →
        (boardOf [(⟨1, 4⟩, ⟨Color.white, PieceType.pawn⟩),
          (⟨0, 3⟩, ⟨Color.black, PieceType.knight⟩)]).grid
            ⟨1 + pawnDir Color.white, 4⟩ = none →
        (getPossibleMoves ⟨Color.white, PieceType.pawn⟩ ⟨1, 4⟩
          (boardOf [(⟨1, 4⟩, ⟨Color.white, PieceType.pawn⟩),
            (⟨0, 3⟩, ⟨Color.black, PieceType.knight⟩)])).filter
            (fun m => m.toPos == (⟨finalRank Color.white, 4⟩ : Position)) =
          promoOptions.map fun pp =>
            ⟨⟨1, 4⟩, ⟨finalRank Color.white, 4⟩, MoveType.promotion, some pp, none⟩) ∧
      (∀ dc : Int, (dc = -1 ∨ dc = 1) → ∀ tp : Piece,
        (1 : Int) + pawnDir Color.white = finalRank Color.white →
        (boardOf [(⟨1, 4⟩, ⟨Color.white, PieceType.pawn⟩),
          (⟨0, 3⟩, ⟨Color.black, PieceType.knight⟩)]).grid
            ⟨1 + pawnDir Color.white, 4 + dc⟩ = some tp →
        tp.color ≠ Color.white →
        (getPossibleMoves ⟨Color.white, PieceType.pawn⟩ ⟨1, 4⟩
          (boardOf [(⟨1, 4⟩, ⟨Color.white, PieceType.pawn⟩),
            (⟨0, 3⟩, ⟨Color.black, PieceType.knight⟩)])).filter
            (fun m => m.toPos == (⟨finalRank Color.white, 4 + dc⟩ : Position)) =
          if 0 ≤ (4 : Int) + dc ∧ (4 : Int) + dc < 8 then
            promoOptions.map fun pp =>
              ⟨⟨1, 4⟩, ⟨finalRank Color.white, 4 + dc⟩, MoveType.promotion,
                some pp, some tp⟩
          else []) :=
  claim_c7_promotion_moves Color.white ⟨1, 4⟩
    (boardOf [(⟨1, 4⟩, ⟨Color.white, PieceType.pawn⟩),
      (⟨0, 3⟩, ⟨Color.black, PieceType.knight⟩)])
    (fun _ ht => Option.noConfusion ht)

/-- Decomposition of a successful make_move: the source square held a piece
of the side to move, the move passed the legality check, _execute_move
succeeded, and the result state carries its board. -/
theorem makeMove_true_decomp {s : GameState} {m : Move} {s' : GameState}
    (h : makeMove s m = some (true, s')) :
    ∃ piece ge, s.board.grid m.fromPos = some piece ∧ piece.color = s.currentTurn ∧
      isMoveLegalE s.board m = some true ∧ executeMove s m = some ge ∧
      s'.board = ge.board := by
  unfold makeMove at h
  split at h
  · injection h with h2
    injection h2 with hb
    exact Bool.noConfusion hb
  next piece hg =>
    split at h
    · injection h with h2
      injection h2 with hb
      exact Bool.noConfusion hb
    next hne =>
      have hcol : piece.color = s.currentTurn := not_not.mp hne
      split at h
      · exact Option.noConfusion h
      · injection h with h2
        injection h2 with hb
        exact Bool.noConfusion hb
      next hleg =>
        rcases hx : executeMove s m with - | ge <;> rw [hx] at h
        · exact Option.noConfusion h
        · injection h with h2
          have hsnd := congrArg Prod.snd h2
          dsimp only [] at hsnd
          refine ⟨piece, ge, hg, hcol, hleg, rfl, ?_⟩
          rw [← hsnd, updateGameStatus_board]

/-- The en-passant target after _execute_move: set to the jumped-over square
by a PAWN_DOUBLE, cleared by every other move type. -/
theorem executeMove_enPassantTarget (gs : GameState) (m : Move) (piece : Piece)
    (ge : GameState)
    (hfromEq : gs.board.grid m.fromPos = some piece)
    (hexec : executeMove gs m = some ge) :
    ge.board.enPassantTarget =
      if m.moveType = MoveType.pawnDouble then
        some ⟨m.fromPos.row + pawnDir piece.color, m.fromPos.col⟩
      else none := by
  unfold executeMove at hexec
  simp only [hfromEq] at hexec
  rcases hmt : m.moveType
  all_goals rw [hmt] at hexec
  case normal =>
    rw [if_neg (by decide :
      ¬(MoveType.normal = MoveType.capture ∨ MoveType.normal = MoveType.promotion))] at hexec
    injection hexec with h
    subst h
    simp [updateCastlingRightsOnMove_ep, move_enPassantTarget]
  case capture =>
    rw [if_pos (by decide :
      MoveType.capture = MoveType.capture ∨ MoveType.capture = MoveType.promotion)] at hexec
    injection hexec with h
    subst h
    simp [updateCastlingRightsOnMove_ep, move_enPassantTarget]
  case pawnDouble =>
    rw [if_neg (by decide :
      ¬(MoveType.pawnDouble = MoveType.capture ∨
        MoveType.pawnDouble = MoveType.promotion))] at hexec
    injection hexec with h
    subst h
    simp [updateCastlingRightsOnMove_ep, executePawnDouble, move_enPassantTarget, pawnDir]
  case enPassant =>
    rw [if_neg (by decide :
      ¬(MoveType.enPassant = MoveType.capture ∨
        MoveType.enPassant = MoveType.promotion))] at hexec
    injection hexec with h
    subst h
    rcases hat : gs.board.grid ⟨m.fromPos.row, m.toPos.col⟩ with - | cp <;>
      simp [updateCastlingRightsOnMove_ep, executeEnPassant, hat,
        move_enPassantTarget, set_enPassantTarget, Board.removePiece, pushCaptured_board]
  case promotion =>
    rw [if_pos (by decide :
      MoveType.promotion = MoveType.capture ∨
        MoveType.promotion = MoveType.promotion)] at hexec
    rcases hpp : m.promotionPiece with - | pt <;>
      simp only [executePromotion, hpp] at hexec
    · exact Option.noConfusion hexec
    · injection hexec with h
      subst h
      simp [updateCastlingRightsOnMove_ep, set_enPassantTarget, Board.removePiece]
  case castlingKingside =>
    rw [if_neg (by decide :
      ¬(MoveType.castlingKingside = MoveType.capture ∨
        MoveType.castlingKingside = MoveType.promotion))] at hexec
    injection hexec with h
    subst h
    simp [updateCastlingRightsOnMove_ep, executeCastlingKingside, move_enPassantTarget]
  case castlingQueenside =>
    rw [if_neg (by decide :
      ¬(MoveType.castlingQueenside = MoveType.capture ∨
        MoveType.castlingQueenside = MoveType.promotion))] at hexec
    injection hexec with h
    subst h
    simp [updateCastlingRightsOnMove_ep, executeCastlingQueenside, move_enPassantTarget]

/-- C8.  After every successful make_move the en-passant target of the new
board is the square jumped over if the move was a PAWN_DOUBLE and None for
every other move type: the target set by any previous move is cleared at the
start of execution, so it lives for exactly one ply. -/
theorem claim_c8_en_passant_target (s : GameState) (m : Move) (s' : GameState)
    (h : makeMove s m = some (true, s')) :
    s'.board.enPassantTarget =
      if m.moveType = MoveType.pawnDouble then
        some ⟨m.fromPos.row + pawnDir s.currentTurn, m.fromPos.col⟩
      else none := by
  obtain ⟨piece, ge, hg, hcol, hleg, hexec, hboard⟩ := makeMove_true_decomp h
  rw [hboard, executeMove_enPassantTarget s m piece ge hg hexec, hcol]

/-- The white pawn double push a2-a4 on the small fixture. -/
def mC8 : Move := ⟨⟨6, 0⟩, ⟨4, 0⟩, .pawnDouble, none, none⟩

/-- The state after the double push, extracted so the success equation is a
definitional computation. -/
def gsC8after : GameState := ((makeMove gsSmall mC8).getD (false, gsSmall)).2

/-- Witness for C8: the double push a2-a4 succeeds and leaves the jumped
square a3 as the en-passant target. -/
theorem claim_c8_witness :
    makeMove gsSmall mC8 = some (true, gsC8after) ∧
      gsC8after.board.enPassantTarget =
        (if mC8.moveType = MoveType.pawnDouble then
          some ⟨mC8.fromPos.row + pawnDir gsSmall.currentTurn, mC8.fromPos.col⟩
        else none) := by
  have h : makeMove gsSmall mC8 = some (true, gsC8after) := rfl
  exact ⟨h, claim_c8_en_passant_target gsSmall mC8 gsC8after h⟩

/-- A state whose white capture ledger is nonempty. -/
def gsC9 : GameState := { gsSmall with capturedByWhite := [PieceType.pawn] }

/-- C9, amended.  GameState.copy reproduces the board, the turn, the move
history, the status, the clocks and the selected square, but resets both
capture ledgers and the redo stack to empty (the constructor defaults),
rather than copying them.  Independence of the copy is immediate in this
model, where make_move returns a new state. -/
theorem claim_c9_copy_fields (s : GameState) :
    (GameState.copy s).board = s.board ∧
      (GameState.copy s).currentTurn = s.currentTurn ∧
      (GameState.copy s).moveHistory = s.moveHistory ∧
      (GameState.copy s).gameStatus = s.gameStatus ∧
      (GameState.copy s).halfMoveClock = s.halfMoveClock ∧
      (GameState.copy s).fullMoveNumber = s.fullMoveNumber ∧
      (GameState.copy s).selectedPosition = s.selectedPosition ∧
      (GameState.copy s).capturedByWhite = [] ∧
      (GameState.copy s).capturedByBlack = [] ∧
      (GameState.copy s).redoStack = [] :=
  ⟨rfl, rfl, rfl, rfl, rfl, rfl, rfl, rfl, rfl, rfl⟩

/-- Counterexample to claim C9 as frozen: on a state whose white capture
ledger holds a pawn, the copy's ledger is empty, so not every field of the
copy equals the corresponding field of the original. -/
theorem claim_c9_counterexample :
    (GameState.copy gsC9).capturedByWhite ≠ gsC9.capturedByWhite := by
  decide

/-- A lone white pawn on its home square a2 (row 6). -/
def bC10a : Board := boardOf [(⟨6, 0⟩, ⟨.white, .pawn⟩)]

/-- A lone white pawn one step from promotion on a7 (row 1). -/
def bC10b : Board := boardOf [(⟨1, 0⟩, ⟨.white, .pawn⟩)]

/-- C10.  Attack detection counts pawn pushes: with a lone white pawn on a2,
the squares a3 and a4 are reported as attacked by white although every move
the pawn generates is a non-capturing NORMAL or PAWN_DOUBLE push; with a
lone white pawn on a7, the promotion square a8 is reported as attacked
although every generated move is a non-capturing PROMOTION push.  Only
castling move types are excluded from the attack scan. -/
theorem claim_c10_pawn_push_attacks :
    bC10a.isPositionAttacked ⟨5, 0⟩ Color.white = true ∧
      bC10a.isPositionAttacked ⟨4, 0⟩ Color.white = true ∧
      (∀ m ∈ getPossibleMoves ⟨.white, .pawn⟩ ⟨6, 0⟩ bC10a,
        m.capturedPiece = none ∧
          (m.moveType = MoveType.normal ∨ m.moveType = MoveType.pawnDouble)) ∧
      bC10b.isPositionAttacked ⟨0, 0⟩ Color.white = true ∧
      (∀ m ∈ getPossibleMoves ⟨.white, .pawn⟩ ⟨1, 0⟩ bC10b,
        m.capturedPiece = none ∧ m.moveType = MoveType.promotion) := by
  decide

end ChessChampion
